import Mathlib

/-!
Verification development for the cloudsync repository (sync engine).

The definitions below are a shallow embedding of `src/cloudsync/sync.py` and
`src/cloudsync/provider.py`.  Python byte strings are `List (Fin 256)`,
Python `str` values are Lean `String` (or `List Char` for the character-level
provider path algorithms), Python `None` is `Option.none`, Python `float`
timestamps are `Rat`, exceptions are `Except PyErr`.  Mutable `SyncEntry`
objects are modelled by a heap (`entries : List (EntId × SyncEntry)`): the
indices of `SyncState` store entry identities (`EntId`), mirroring the fact
that the Python dictionaries store references to shared mutable objects.
-/

namespace CloudSync

deriving instance DecidableEq for Except

/-- Python exception kinds that appear in the embedded code. -/
inductive PyErr where
  | valueError
  | keyError
  | assertionError
  | typeError
  | cloudFileNotFound
  | cloudFileExists
  | providerError
deriving DecidableEq, Repr

/-- Whether an `Except` computation succeeded (a reusable projection for
counterexample evaluations). -/
def isOkE {α : Type} : Except PyErr α → Bool
  | .ok _ => true
  | .error _ => false

/-! ### Association lists, modelling Python `dict` (insertion ordered). -/

/-- Lookup in an association list, `d[k]` / `d.get(k)`. -/
def aget {κ α : Type} [DecidableEq κ] : List (κ × α) → κ → Option α
  | [], _ => none
  | (k, v) :: r, k' => if k' = k then some v else aget r k'

/-- Insert or overwrite, `d[k] = v` (keeps insertion order, like Python). -/
def aset {κ α : Type} [DecidableEq κ] : List (κ × α) → κ → α → List (κ × α)
  | [], k, v => [(k, v)]
  | (k0, v0) :: r, k, v => if k = k0 then (k0, v) :: r else (k0, v0) :: aset r k v

/-- Delete a key, `d.pop(k, None)` / `del d[k]` (first occurrence). -/
def adel {κ α : Type} [DecidableEq κ] : List (κ × α) → κ → List (κ × α)
  | [], _ => []
  | (k0, v0) :: r, k => if k = k0 then r else (k0, v0) :: adel r k

/-! ### The `Exists` tri-state enumeration (sync.py lines 45-56). -/

/-- The tri-state existence enumeration; `value` gives the Python enum value. -/
inductive Exists where
  | UNKNOWN
  | EXISTS
  | TRASHED
deriving DecidableEq, Repr

/-- The Python `Exists.value`: UNKNOWN is None, EXISTS is True, TRASHED is False. -/
def Exists.value : Exists → Option Bool
  | .UNKNOWN => none
  | .EXISTS => some true
  | .TRASHED => some false

/-- Python boolean coercion of an `Exists` member: `__bool__` always raises. -/
def Exists.pybool (_ : Exists) : Except PyErr Bool :=
  .error .valueError

/-- A Python value that may be assigned to the `SideState.exists` property:
a bool, None, an `Exists` member, or a value of any other type. -/
inductive ExVal where
  | pybool (b : Bool)
  | pynone
  | pyexists (e : Exists)
  | pyother (descr : String)
deriving DecidableEq, Repr

/-- The `SideState.exists` property setter (sync.py lines 77-89): `False` becomes
TRASHED, `True` becomes EXISTS, `None` becomes UNKNOWN, an `Exists` member
passes through, and anything else raises `ValueError`. -/
def exists_setter (v : ExVal) : Except PyErr Exists :=
  let v := if v = .pybool false then .pyexists .TRASHED else v
  let v := if v = .pybool true then .pyexists .EXISTS else v
  let v := if v = .pynone then .pyexists .UNKNOWN else v
  match v with
  | .pyexists e => .ok e
  | _ => .error .valueError

/-- Modelled from the spec: `cloudsync/types.py` is not part of the provided
source; §3 of the spec gives the object-type enumeration as
FILE / DIRECTORY / NOTKNOWN, an ordinary enum whose `.value` round-trips. -/
inductive OType where
  | FILE
  | DIRECTORY
  | NOTKNOWN
deriving DecidableEq, Repr

/-! ### Bytes and hex encoding (`bytes.hex` / `bytes.fromhex`). -/

/-- A Python byte string. -/
abbrev Bytes := List (Fin 256)

/-- Hex encoding of one byte, two lowercase hex digits (as `bytes.hex` does). -/
def byteHex (b : Fin 256) : List Char :=
  [Nat.digitChar (b.val / 16), Nat.digitChar (b.val % 16)]

/-- `bytes.hex()`: hex encoding of a byte string. -/
def bytesHex (bs : Bytes) : List Char :=
  (bs.map byteHex).flatten

/-- Value of one hex digit character, `none` for a non-digit. -/
def hexVal (c : Char) : Option (Fin 16) :=
  if c = '0' then some 0 else if c = '1' then some 1 else
  if c = '2' then some 2 else if c = '3' then some 3 else
  if c = '4' then some 4 else if c = '5' then some 5 else
  if c = '6' then some 6 else if c = '7' then some 7 else
  if c = '8' then some 8 else if c = '9' then some 9 else
  if c = 'a' then some 10 else if c = 'b' then some 11 else
  if c = 'c' then some 12 else if c = 'd' then some 13 else
  if c = 'e' then some 14 else if c = 'f' then some 15 else none

/-- Combine two hex digits into one byte. -/
def mkByte (h l : Fin 16) : Fin 256 :=
  ⟨16 * h.val + l.val, by omega⟩

/-- `bytes.fromhex`: parse a hex string, `none` on a malformed one. -/
def bytesFromHex : List Char → Option Bytes
  | [] => some []
  | c1 :: c2 :: rest =>
    match hexVal c1, hexVal c2, bytesFromHex rest with
    | some h, some l, some bs => some (mkByte h l :: bs)
    | _, _, _ => none
  | [_] => none

/-! ### SideState and SyncEntry (sync.py lines 60-254). -/

/-- State of a single object on one side (sync.py lines 60-70).  The
`exists_` field is the private `_exists` backing store of the property. -/
structure SideState where
  side : Nat
  hash : Option Bytes := none
  changed : Option Rat := none
  sync_hash : Option Bytes := none
  sync_path : Option String := none
  path : Option String := none
  oid : Option String := none
  exists_ : Exists := .UNKNOWN
deriving DecidableEq, Repr

/-- Fresh side state, `SideState(side)`. -/
def SideState.new (side : Nat) : SideState := { side := side }

/-- Python truthiness of an optional string (`None` and `""` are falsy). -/
def truthyS : Option String → Bool
  | none => false
  | some s => !(s = "")

/-- Python truthiness of an optional float (`None` and `0.0` are falsy). -/
def truthyT : Option Rat → Bool
  | none => false
  | some t => !(t = 0)

/-- Python truthiness of an optional byte string (`None` and `b""` are falsy). -/
def truthyB : Option Bytes → Bool
  | none => false
  | some b => !(b = [])

/-- A single entry in the sync state collection (sync.py lines 127-139);
`state0`/`state1` are the two `SideState`s. -/
structure SyncEntry where
  state0 : SideState := SideState.new 0
  state1 : SideState := SideState.new 1
  otype : Option OType
  temp_file : Option String := none
  discarded : Bool := false
  storage_id : Option Nat := none
  dirty : Bool := true
deriving DecidableEq, Repr

/-- Side-indexed read, `ent[i]` (sync.py line 186). -/
def SyncEntry.get (e : SyncEntry) (i : Nat) : SideState :=
  if i = 0 then e.state0 else e.state1

/-- Side-indexed write of one side state. -/
def SyncEntry.set (e : SyncEntry) (i : Nat) (s : SideState) : SyncEntry :=
  if i = 0 then { e with state0 := s } else { e with state1 := s }

/-- The fields of an entry that the serialization round-trip claim compares:
both side states and `otype`, `temp_file`, `discarded` (not `storage_id`
or `dirty`). -/
def entryCore (e : SyncEntry) :
    SideState × SideState × Option OType × Option String × Bool :=
  (e.state0, e.state1, e.otype, e.temp_file, e.discarded)

/-! ### Serialization (sync.py lines 141-184).

`SyncEntry.serialize` builds a Python dict and JSON-encodes it; since
`json.dumps` is injective and deterministic on such dicts, the byte string is
modelled by the dict itself (`SerDict`), and "byte-equal modulo key order"
is equality of `SerDict` values. -/

/-- The per-side serialization dict (`side_state_to_dict`): the `hash` and
`sync_hash` slots hold hex strings or `null`, `exists` holds the enum value. -/
structure SideDict where
  side : Nat
  hash : Option (List Char)
  changed : Option Rat
  sync_hash : Option (List Char)
  path : Option String
  sync_path : Option String
  oid : Option String
  exists_ : Option Bool
deriving DecidableEq, Repr

/-- The whole serialization dict written by `SyncEntry.serialize`. -/
structure SerDict where
  side0 : SideDict
  side1 : SideDict
  otype : OType
  temp_file : Option String
  discarded : Bool
deriving DecidableEq, Repr

/-- Encode one side state (`side_state_to_dict`, sync.py lines 143-154). -/
def side_state_to_dict (s : SideState) : SideDict :=
  { side := s.side
    hash := s.hash.map bytesHex
    changed := s.changed
    sync_hash := s.sync_hash.map bytesHex
    path := s.path
    sync_path := s.sync_path
    oid := s.oid
    exists_ := s.exists_.value }

/-- `SyncEntry.serialize` (sync.py lines 141-162); raises when `otype` is
`None` (Python would fail on `self.otype.value`). -/
def serializeE (e : SyncEntry) : Except PyErr SerDict :=
  match e.otype with
  | none => .error .typeError
  | some ot =>
    .ok { side0 := side_state_to_dict e.state0
          side1 := side_state_to_dict e.state1
          otype := ot
          temp_file := e.temp_file
          discarded := e.discarded }

/-- The deserializer reads `side_dict['hash']` with
`bytes.fromhex(x) if x else None`: `null` and the empty hex string both give
`None`; a malformed hex string raises. -/
def decodeHash (h : Option (List Char)) : Except PyErr (Option Bytes) :=
  match h with
  | none => .ok none
  | some l =>
    if l = [] then .ok none
    else
      match bytesFromHex l with
      | some bs => .ok (some bs)
      | none => .error .valueError

/-- The stored `exists` value as the Python value handed to the property
setter by `dict_to_side_state`. -/
def exValOfStored : Option Bool → ExVal
  | none => .pynone
  | some b => .pybool b

/-- `dict_to_side_state` (sync.py lines 166-176). -/
def dict_to_side_state (side : Nat) (d : SideDict) : Except PyErr SideState := do
  let h ← decodeHash d.hash
  let sh ← decodeHash d.sync_hash
  let ex ← exists_setter (exValOfStored d.exists_)
  let s := SideState.new side
  .ok { s with
        side := d.side
        hash := h
        changed := d.changed
        sync_hash := sh
        sync_path := d.sync_path
        path := d.path
        oid := d.oid
        exists_ := ex }

/-- `SyncEntry` constructed from `(eid, serialization)` (sync.py lines
136-139 and 164-184): fields loaded from the dict, `storage_id` set to the
storage id, `dirty` cleared. -/
def deserializeEntry (eid : Nat) (d : SerDict) : Except PyErr SyncEntry := do
  let s0 ← dict_to_side_state 0 d.side0
  let s1 ← dict_to_side_state 1 d.side1
  .ok { state0 := s0
        state1 := s1
        otype := some d.otype
        temp_file := d.temp_file
        discarded := d.discarded
        storage_id := some eid
        dirty := false }

/-! ### SyncState (sync.py lines 256-427).

Entries are shared mutable Python objects; the model stores them in a heap
keyed by `EntId` and the oid/path indices hold `EntId`s.  Index keys are
`Option String` because `__init__` indexes rehydrated entries by their raw
`path`/`oid` attributes, which may be `None`. -/

abbrev EntId := Nat

abbrev OidsMap := List (Option String × EntId)

abbrev PathsMap := List (Option String × List (Option String × EntId))

/-- The sync state: the entry heap, the two per-side indices `_oids` and
`_paths`, the `_changeset`, and the optional storage backend (modelled as an
id-to-serialization table plus a fresh-row-id counter). -/
structure SyncState where
  entries : List (EntId × SyncEntry) := []
  oids0 : OidsMap := []
  oids1 : OidsMap := []
  paths0 : PathsMap := []
  paths1 : PathsMap := []
  changeset : List EntId := []
  storage : Option (List (Nat × SerDict)) := none
  nextEid : Nat := 0
  nextSid : Nat := 0
deriving DecidableEq, Repr

/-- `self._oids[side]`. -/
def SyncState.oids (st : SyncState) (side : Nat) : OidsMap :=
  if side = 0 then st.oids0 else st.oids1

/-- Replace `self._oids[side]`. -/
def SyncState.setOidsIdx (st : SyncState) (side : Nat) (m : OidsMap) : SyncState :=
  if side = 0 then { st with oids0 := m } else { st with oids1 := m }

/-- `self._paths[side]`. -/
def SyncState.pathsIdx (st : SyncState) (side : Nat) : PathsMap :=
  if side = 0 then st.paths0 else st.paths1

/-- Replace `self._paths[side]`. -/
def SyncState.setPathsIdx (st : SyncState) (side : Nat) (m : PathsMap) : SyncState :=
  if side = 0 then { st with paths0 := m } else { st with paths1 := m }

/-- Dereference an entry id (a Python object reference). -/
def SyncState.getEnt (st : SyncState) (i : EntId) : Option SyncEntry :=
  aget st.entries i

/-- Write back a mutated entry object. -/
def SyncState.setEnt (st : SyncState) (i : EntId) (e : SyncEntry) : SyncState :=
  { st with entries := aset st.entries i e }

/-- Mark an entry dirty, `ent.dirty = True`. -/
def markDirty (e : SyncEntry) : SyncEntry :=
  { e with dirty := true }

/-- `SyncState.lookup_oid` (sync.py lines 300-304): the entry or `[]`
(modelled as `none`). -/
def lookup_oid (st : SyncState) (side : Nat) (oid : Option String) : Option EntId :=
  aget (st.oids side) oid

/-- `SyncState.lookup_path` (sync.py lines 306-310): the values of the path
bucket, or `[]`. -/
def lookup_path (st : SyncState) (side : Nat) (path : Option String) : List EntId :=
  match aget (st.pathsIdx side) path with
  | some bucket => bucket.map (·.2)
  | none => []

/-- `SyncState._change_oid` (sync.py lines 290-298): pop the old oid key when
truthy, then (when the new oid is truthy) index under the new oid, write the
field and mark dirty. -/
def change_oid (st : SyncState) (side : Nat) (entId : EntId) (oid : String) : SyncState :=
  match st.getEnt entId with
  | none => st
  | some e =>
    let st := if truthyS (e.get side).oid
              then st.setOidsIdx side (adel (st.oids side) (e.get side).oid)
              else st
    if oid = "" then st
    else
      let st := st.setOidsIdx side (aset (st.oids side) (some oid) entId)
      st.setEnt entId (markDirty (e.set side { e.get side with oid := some oid }))

/-- The old-path removal step of `_change_path` (sync.py lines 278-282):
when the old path is truthy, pop the entry's oid from the old bucket when
present, then read the bucket again (a `KeyError` when the old path was
never indexed) and drop it when empty. -/
def remove_old_path (st : SyncState) (side : Nat) (oldPath oidKey : Option String) :
    Except PyErr SyncState :=
  if truthyS oldPath then
    let pm := st.pathsIdx side
    let pm := match aget pm oldPath with
              | some bucket => aset pm oldPath (adel bucket oidKey)
              | none => pm
    match aget pm oldPath with
    | some bucket => .ok (st.setPathsIdx side (if bucket = [] then adel pm oldPath else pm))
    | none => .error .keyError
  else .ok st

/-- `SyncState._change_path` (sync.py lines 274-288).  Asserts the entry's
oid is truthy; removes the entry from its old path bucket; when the new
path is truthy, inserts into the new bucket keyed by the entry's oid,
writes the `path` field and marks dirty. -/
def change_path (st : SyncState) (side : Nat) (entId : EntId) (path : String) :
    Except PyErr SyncState :=
  match st.getEnt entId with
  | none => .ok st
  | some e =>
    if !truthyS (e.get side).oid then .error .assertionError
    else do
      let st ← remove_old_path st side (e.get side).path (e.get side).oid
      if path = "" then pure st
      else
        let bucket := (aget (st.pathsIdx side) (some path)).getD []
        let st := st.setPathsIdx side
          (aset (st.pathsIdx side) (some path) (aset bucket (e.get side).oid entId))
        pure (st.setEnt entId (markDirty (e.set side { e.get side with path := some path })))

/-- Field write `ent[side].hash = hash; ent.dirty = True` (sync.py lines
339-341). -/
def set_hash_field (st : SyncState) (entId : EntId) (side : Nat) (h : Bytes) : SyncState :=
  match st.getEnt entId with
  | some e => st.setEnt entId (markDirty (e.set side { e.get side with hash := some h }))
  | none => st

/-- Field write `ent[side].exists = v; ent.dirty = True` after the property
setter resolved `v` (sync.py lines 343-345). -/
def set_exists_field (st : SyncState) (entId : EntId) (side : Nat) (v : Exists) : SyncState :=
  match st.getEnt entId with
  | some e => st.setEnt entId (markDirty (e.set side { e.get side with exists_ := v }))
  | none => st

/-- `SyncState.update_entry` (sync.py lines 332-345).  Each parameter of
type `Option _` is skipped exactly when the Python argument is `None`. -/
def update_entry (st : SyncState) (entId : EntId) (side : Nat)
    (oid : Option String) (path : Option String) (hashArg : Option Bytes)
    (ex : Option ExVal) : Except PyErr SyncState := do
  let st := match oid with
            | some o => change_oid st side entId o
            | none => st
  let st ← match path with
           | some p => change_path st side entId p
           | none => pure st
  let st := match hashArg with
            | some h => set_hash_field st entId side h
            | none => st
  match ex with
  | some v => do
      let exv ← exists_setter v
      pure (set_exists_field st entId side exv)
  | none => pure st

/-- A call of `update_entry` that passes `oid` and `path` and leaves `hash`
and `exists` at their Python defaults (`None` and `True`). -/
def update_entry_defaults (st : SyncState) (entId : EntId) (side : Nat)
    (oid : Option String) (path : Option String) : Except PyErr SyncState :=
  update_entry st entId side oid path none (some (.pybool true))

/-- Add to the changeset, `self._changeset.add(ent)` (a Python set: no
duplicates). -/
def csAdd (l : List EntId) (i : EntId) : List EntId :=
  if i ∈ l then l else l ++ [i]

/-- `SyncState.storage_update` (sync.py lines 347-361): when a storage is
attached (no dirty check in the source!), delete the row of a discarded
persisted entry, otherwise upsert the serialization, assigning `storage_id`
from a fresh row id on the first insert; finally clear `dirty`. -/
def storage_update (st : SyncState) (entId : EntId) : Except PyErr SyncState :=
  match st.storage with
  | none => .ok st
  | some store =>
    match st.getEnt entId with
    | none => .ok st
    | some e =>
      match e.storage_id with
      | some sid =>
        if e.discarded then
          .ok ({ st with storage := some (adel store sid) }.setEnt entId { e with dirty := false })
        else do
          let ser ← serializeE e
          .ok ({ st with storage := some (aset store sid ser) }.setEnt entId { e with dirty := false })
      | none =>
        if e.discarded then .error .assertionError
        else do
          let ser ← serializeE e
          let newId := st.nextSid
          .ok ({ st with storage := some (aset store newId ser), nextSid := st.nextSid + 1
               }.setEnt entId { e with storage_id := some newId, dirty := false })

/-- `SyncState.update` (sync.py lines 366-376): look up by oid, create a
fresh entry when missing, route the assignment through `update_entry`, stamp
`changed` with the current time, add to the changeset and persist. -/
def updateOp (st : SyncState) (side : Nat) (otype : Option OType) (oid : String)
    (path : Option String) (hashArg : Option Bytes) (ex : Option ExVal) (now : Rat) :
    Except PyErr SyncState := do
  let (entId, st) :=
    match lookup_oid st side (some oid) with
    | some i => (i, st)
    | none => (st.nextEid,
               { st with entries := aset st.entries st.nextEid { otype := otype },
                         nextEid := st.nextEid + 1 })
  let st ← update_entry st entId side (some oid) path hashArg ex
  let st := match st.getEnt entId with
            | some e => st.setEnt entId (e.set side { e.get side with changed := some now })
            | none => st
  let st := { st with changeset := csAdd st.changeset entId }
  storage_update st entId

/-- A call of `update` with `hash` and `exists` left at their defaults. -/
def updateOp_defaults (st : SyncState) (side : Nat) (otype : Option OType) (oid : String)
    (path : Option String) (now : Rat) : Except PyErr SyncState :=
  updateOp st side otype oid path none (some (.pybool true)) now

/-- Truthiness test used by `finished`: `ent[1].changed or ent[0].changed`. -/
def entHasChanged (e : SyncEntry) : Bool :=
  truthyT e.state1.changed || truthyT e.state0.changed

/-- `SyncState.finished` (sync.py lines 391-395): keep the entry when a side
still has `changed` set, otherwise `set.remove` it (a `KeyError` when it is
not a member). -/
def finishedOp (st : SyncState) (entId : EntId) : Except PyErr SyncState :=
  match st.getEnt entId with
  | none => .ok st
  | some e =>
    if entHasChanged e then .ok st
    else if entId ∈ st.changeset then .ok { st with changeset := st.changeset.erase entId }
    else .error .keyError

/-- `SyncManager.finished` (sync.py lines 474-483): clear `changed` on the
given side, call `SyncState.finished`, then drop a truthy temp file. -/
def manager_finished (st : SyncState) (side : Nat) (entId : EntId) : Except PyErr SyncState := do
  let st := match st.getEnt entId with
            | some e => st.setEnt entId (e.set side { e.get side with changed := none })
            | none => st
  let st ← finishedOp st entId
  match st.getEnt entId with
  | some e2 =>
    if truthyS e2.temp_file then pure (st.setEnt entId { e2 with temp_file := none })
    else pure st
  | none => pure st

/-- `SyncEntry.discard` (sync.py lines 224-226). -/
def discardOp (st : SyncState) (entId : EntId) : SyncState :=
  match st.getEnt entId with
  | some e => st.setEnt entId { e with discarded := true, dirty := true }
  | none => st

/-- One removal step inside `SyncState.change` (sync.py lines 378-386):
when the sampled entry is discarded it is removed from the changeset. -/
def changeStep (st : SyncState) (entId : EntId) : SyncState :=
  { st with changeset := st.changeset.erase entId }

/-- Indexing of one rehydrated entry for one side (`SyncState.__init__`,
sync.py lines 267-272): the raw `path` and `oid` attributes (possibly
`None`) are used as index keys directly. -/
def rehydrateIndexSide (st : SyncState) (entId : EntId) (ent : SyncEntry) (side : Nat) :
    SyncState :=
  let path := (ent.get side).path
  let oid := (ent.get side).oid
  let bucket := (aget (st.pathsIdx side) path).getD []
  let st := st.setPathsIdx side (aset (st.pathsIdx side) path (aset bucket oid entId))
  st.setOidsIdx side (aset (st.oids side) oid entId)

/-- Rehydration of one storage row (`SyncState.__init__` loop body). -/
def rehydrateRow (st : SyncState) (row : Nat × SerDict) : Except PyErr SyncState := do
  let ent ← deserializeEntry row.1 row.2
  let entId := st.nextEid
  let st := { st with entries := aset st.entries entId ent, nextEid := entId + 1 }
  .ok (rehydrateIndexSide (rehydrateIndexSide st entId ent 0) entId ent 1)

/-- `SyncState.__init__` with a storage handle (sync.py lines 257-272):
every persisted row is rehydrated and indexed by oid and path on both
sides; nothing is added to the changeset.  The fresh-row-id counter starts
above every persisted id, modelling the backend assigning fresh row ids. -/
def rehydrateInit (rows : List (Nat × SerDict)) : Except PyErr SyncState :=
  rows.foldlM rehydrateRow
    { storage := some rows, nextSid := rows.foldl (fun a r => max a (r.1 + 1)) 0 }

/-- `SyncState.__init__` without a storage handle. -/
def emptyState : SyncState := {}

/-! ### SyncManager pieces (sync.py lines 429-805).

Provider calls are modelled by oracle functions passed in as parameters;
each manager function additionally returns the provider commands it issued
so theorems can speak about them. -/

/-- The manager step results, `FINISHED = 1`, `REQUEUE = 0`. -/
inductive SyncRes where
  | FINISHED
  | REQUEUE
deriving DecidableEq, Repr

/-- A rename issued to a provider: which side, the oid, the new path. -/
structure RenameCmd where
  side : Nat
  oid : Option String
  path : String
deriving DecidableEq, Repr

/-- Python string comparison `a < b` (lexicographic on code points). -/
def pyLtL : List Char → List Char → Bool
  | [], [] => false
  | [], _ :: _ => true
  | _ :: _, [] => false
  | a :: xs, b :: ys =>
    if a.toNat < b.toNat then true
    else if b.toNat < a.toNat then false
    else pyLtL xs ys

/-- Python string comparison `a > b`. -/
def pyStrGt (a b : String) : Bool := pyLtL b.data a.data

/-- `SyncManager.handle_path_conflict` (sync.py lines 788-804): pick side 0
when `path1 > path2` else side 1, translate the picked path for the other
side (return silently when the translation is `None`), rename the other
side's object to it and route the new path through `update_entry`. -/
def handle_path_conflict (st : SyncState) (entId : EntId)
    (translate : Nat → String → Option String)
    (renameRes : Nat → Option String → String → Except PyErr Unit) :
    Except PyErr (SyncState × List RenameCmd) :=
  match st.getEnt entId with
  | none => .ok (st, [])
  | some e =>
    match e.state0.path, e.state1.path with
    | some p1, some p2 =>
      let pick := if pyStrGt p1 p2 then 0 else 1
      let picked := e.get pick
      let other := e.get (1 - pick)
      match picked.path with
      | some ppath =>
        match translate other.side ppath with
        | none => .ok (st, [])
        | some other_path => do
          renameRes other.side other.oid other_path
          let st ← update_entry_defaults st entId other.side other.oid (some other_path)
          .ok (st, [⟨other.side, other.oid, other_path⟩])
      | none => .error .typeError
    | _, _ => .error .typeError

/-- `SyncManager.handle_split_conflict` (sync.py lines 773-786): rename the
replace side to `path + ".conflicted"`, route the new path through
`update_entry`, then re-arm the defer side with `changed = now` (a direct
field write). -/
def handle_split_conflict (st : SyncState) (deferId : EntId) (deferSide : Nat)
    (replaceId : EntId) (replaceSide : Nat)
    (renameRes : Nat → Option String → String → Except PyErr Unit) (now : Rat) :
    Except PyErr (SyncState × List RenameCmd) :=
  match st.getEnt replaceId with
  | none => .ok (st, [])
  | some re =>
    let replace := re.get replaceSide
    match replace.path with
    | none => .error .typeError
    | some rpath => do
      let conflict_path := rpath ++ ".conflicted"
      renameRes replace.side replace.oid conflict_path
      let st ← update_entry_defaults st replaceId replaceSide replace.oid (some conflict_path)
      let st := match st.getEnt deferId with
                | some de =>
                  st.setEnt deferId (de.set deferSide { de.get deferSide with changed := some now })
                | none => st
      .ok (st, [⟨replace.side, replace.oid, conflict_path⟩])

/-- The rename branch of `SyncManager.handle_path_change_or_creation`
(sync.py lines 716-725, the `else` of `is_creation`): assert the synced
oid, rename at the provider, then write `path`, `sync_path` on the synced
side and `sync_path` on the changed side as direct field assignments --
without routing the path change through the `_paths` index. -/
def renameBranch (st : SyncState) (entId : EntId) (changed synced : Nat)
    (translated_path : String)
    (renameRes : Nat → Option String → String → Except PyErr Unit) :
    Except PyErr (SyncState × SyncRes) :=
  match st.getEnt entId with
  | none => .ok (st, .FINISHED)
  | some e =>
    if !truthyS (e.get synced).oid then .error .assertionError
    else do
      renameRes synced (e.get synced).oid translated_path
      let e := e.set synced
        { e.get synced with path := some translated_path, sync_path := some translated_path }
      let e := e.set changed { e.get changed with sync_path := (e.get changed).path }
      .ok (st.setEnt entId e, .FINISHED)

/-- Outcome of a provider `delete` call. -/
inductive DelRes where
  | ok
  | notFound
  | err
deriving DecidableEq, Repr

/-- `SyncManager.delete_synced` (sync.py lines 630-653): when no other entry
shares the changed side's path, attempt the delete on the synced side (when
the synced oid is truthy) with `CloudFileNotFoundError` swallowed, and mark
the synced side TRASHED; otherwise discard the current entry.  Returns the
oids on which a delete was attempted. -/
def delete_synced (st : SyncState) (entId : EntId) (changed synced : Nat)
    (deleteRes : Option String → DelRes) :
    Except PyErr (SyncState × List (Option String)) :=
  match st.getEnt entId with
  | none => .ok (st, [])
  | some e =>
    let ents := (lookup_path st changed (e.get changed).path).filter (· ≠ entId)
    if ents = [] then
      if truthyS (e.get synced).oid then
        match deleteRes (e.get synced).oid with
        | .err => .error .providerError
        | _ =>
          .ok (st.setEnt entId (e.set synced { e.get synced with exists_ := .TRASHED }),
               [(e.get synced).oid])
      else
        .ok (st.setEnt entId (e.set synced { e.get synced with exists_ := .TRASHED }), [])
    else
      .ok (discardOp st entId, [])

/-- Result of the deletion prefix of `embrace_change`: either the deletion
branch ran, or control falls through to the later branches (path change,
upload, no-op), which the deletion claim does not touch. -/
inductive EmbraceRes where
  | res (st : SyncState) (deletes : List (Option String)) (r : SyncRes)
  | fallthrough
deriving DecidableEq, Repr

/-- The deletion branch of `SyncManager.embrace_change` (sync.py lines
727-732): when `sync[changed].exists == TRASHED`, run `delete_synced` and
return FINISHED. -/
def embrace_change_del (st : SyncState) (entId : EntId) (changed synced : Nat)
    (deleteRes : Option String → DelRes) : Except PyErr EmbraceRes :=
  match st.getEnt entId with
  | none => .ok .fallthrough
  | some e =>
    if (e.get changed).exists_ = .TRASHED then do
      let r ← delete_synced st entId changed synced deleteRes
      .ok (.res r.1 r.2 .FINISHED)
    else .ok .fallthrough

/-! ### Provider path helpers (provider.py lines 117-170).

These are character-level algorithms on Python strings, modelled on
`List Char`; `sep = '/'`, `alt_sep` is the backslash, `case_sensitive`
is `True` (the class defaults). -/

abbrev PyStr := List Char

/-- The primary separator. -/
def sepC : Char := '/'

/-- The alternate separator (one backslash). -/
def altSepC : Char := '\\'

/-- `s.replace(alt_sep, sep)`. -/
def replaceAltSep (p : PyStr) : PyStr :=
  p.map (fun c => if c = altSepC then sepC else c)

/-- `s.rstrip(sep)`. -/
def rstripSep (p : PyStr) : PyStr :=
  (p.reverse.dropWhile (· = sepC)).reverse

/-- The union-typed return of `is_subpath`: `False` or a string. -/
inductive SubRes where
  | fls
  | str (s : PyStr)
deriving DecidableEq, Repr

/-- Python truthiness of a `SubRes` (`False` and `""` are falsy). -/
def subTruthy : SubRes → Bool
  | .fls => false
  | .str s => !(s = [])

/-- `Provider.is_subpath(folder, target)` with the default arguments
(provider.py lines 137-163): the separator when the stripped paths are
equal, the remainder (with its leading separator) for a proper subpath,
`False` otherwise. -/
def is_subpath (folder target : PyStr) : SubRes :=
  let folder := replaceAltSep folder
  let target := replaceAltSep target
  let folder_full := rstripSep folder
  let target_full := rstripSep target
  if folder_full = target_full then .str [sepC]
  else if folder_full.length < target_full.length ∧
          target_full[folder_full.length]? = some sepC then
    if folder_full.isPrefixOf target_full then .str (target_full.drop folder_full.length)
    else .fls
  else .fls

/-- `Provider.replace_path` exactly as written (provider.py lines 165-170):
the computed `retval` is discarded and the relative remainder is returned
instead. -/
def replace_path (path from_dir to_dir : PyStr) : Except PyErr PyStr :=
  let relative := is_subpath from_dir path
  if subTruthy relative then
    match relative with
    | .str s =>
      let _retval := to_dir ++ (if s ≠ [sepC] then s else [])
      .ok (if s ≠ [] then s else [sepC])
    | .fls => .error .valueError
  else .error .valueError

/-- Modelled from the spec: the stated contract of `replace_path` (spec §9
open question 2, "return `to_dir` concatenated with the subpath remainder"),
which is also the `retval` expression the source computes and drops. -/
def replace_path_contract (path from_dir to_dir : PyStr) : Except PyErr PyStr :=
  match is_subpath from_dir path with
  | .str s => .ok (to_dir ++ (if s ≠ [sepC] then s else []))
  | .fls => .error .valueError

/-- Last index of a character, `s.rfind(c)` (`none` for `-1`). -/
def rfindIdx : PyStr → Char → Option Nat
  | [], _ => none
  | a :: rest, c =>
    match rfindIdx rest c with
    | some i => some (i + 1)
    | none => if a = c then some 0 else none

/-- The split index used by `Provider.split`: the last primary separator,
falling back to the last alternate separator. -/
def splitIdx (p : PyStr) : Option Nat :=
  match rfindIdx p sepC with
  | some i => some i
  | none => rfindIdx p altSepC

/-- `Provider.split(path)` (provider.py lines 117-126). -/
def psplit (p : PyStr) : PyStr × PyStr :=
  match splitIdx p with
  | none => (p, [])
  | some 0 => ([sepC], p.drop 1)
  | some i => (p.take i, p.drop (i + 1))

/-- Termination fact for `mkdirs`: a found index is in range. -/
def rfindIdx_lt_length (p : PyStr) (c : Char) (i : Nat)
    (h : rfindIdx p c = some i) : i < p.length := by
  induction p generalizing i with
  | nil => simp [rfindIdx] at h
  | cons a rest ih =>
    simp only [rfindIdx] at h
    cases hr : rfindIdx rest c with
    | some j =>
      rw [hr] at h
      cases h
      have := ih j hr
      simp
      omega
    | none =>
      rw [hr] at h
      by_cases ha : a = c
      · simp [ha] at h
        cases h
        simp
      · simp [ha] at h

/-- The termination measure for `mkdirs`: twice the length, plus one unless
the path is exactly the separator. -/
def pmeasure (p : PyStr) : Nat :=
  2 * p.length + (if p = [sepC] then 0 else 1)

/-- Termination fact for `mkdirs`: the split index is in range. -/
def splitIdx_lt_length (p : PyStr) (i : Nat) (h : splitIdx p = some i) :
    i < p.length := by
  unfold splitIdx at h
  rcases hs : rfindIdx p sepC with _ | j
  · rw [hs] at h
    exact rfindIdx_lt_length p altSepC i h
  · rw [hs] at h
    cases h
    exact rfindIdx_lt_length p sepC i hs

/-- Termination fact for `mkdirs`: when `split` moves to a proper parent,
the measure drops (the parent is shorter, or is the bare separator). -/
def psplit_measure_lt (p : PyStr) (h : (psplit p).1 ≠ p) :
    pmeasure (psplit p).1 < pmeasure p := by
  rcases hs : splitIdx p with _ | i
  · exfalso
    apply h
    simp [psplit, hs]
  · have hi : i < p.length := splitIdx_lt_length p i hs
    cases i with
    | zero =>
      have hfst : (psplit p).1 = [sepC] := by simp [psplit, hs]
      rw [hfst] at h ⊢
      have hp : p ≠ [sepC] := fun hp => h hp.symm
      simp only [pmeasure, hp, if_neg, List.length_cons, List.length_nil]
      simp
      omega
    | succ j =>
      have hfst : (psplit p).1 = p.take (j + 1) := by simp [psplit, hs]
      rw [hfst]
      have htake : (p.take (j + 1)).length = j + 1 := by
        simp [List.length_take]
        omega
      have hp : p ≠ [sepC] := by
        intro hp
        rw [hp] at hi
        simp at hi
      simp only [pmeasure, htake, hp]
      by_cases hsep : p.take (j + 1) = [sepC] <;> simp [hsep] <;> omega

/-- Provider-call outcomes for `mkdir`. -/
inductive MkdirRes where
  | ok (oid : Nat)
  | errExists
  | errNotFound
  | errOther
deriving DecidableEq, Repr

/-- An abstract provider for `mkdirs`: `mkdir` and `info_path` as state
transformers over an arbitrary provider state. -/
structure ProvOps (σ : Type) where
  mkdir : σ → PyStr → MkdirRes × σ
  info_path : σ → PyStr → Option Nat × σ

/-- `SyncManager.mkdirs` (sync.py lines 505-529): try `mkdir`; on
`CloudFileExistsError`, return the oid found by `info_path` (re-raise when
absent); on `CloudFileNotFoundError`, split off the parent, raise when the
parent equals the path, otherwise recurse on the parent and retry once,
converting a second `CloudFileNotFoundError` into `CloudFileExistsError`.
The recursion is well founded by `pmeasure`. -/
def mkdirs {σ : Type} (ops : ProvOps σ) (st : σ) (p : PyStr) : Except PyErr (Nat × σ) :=
  match ops.mkdir st p with
  | (.ok oid, st1) => .ok (oid, st1)
  | (.errOther, _) => .error .providerError
  | (.errExists, st1) =>
    match ops.info_path st1 p with
    | (some oid, st2) => .ok (oid, st2)
    | (none, _) => .error .cloudFileExists
  | (.errNotFound, st1) =>
    if hpp : (psplit p).1 = p then .error .cloudFileNotFound
    else
      match mkdirs ops st1 (psplit p).1 with
      | .error e => .error e
      | .ok (_, st2) =>
        match ops.mkdir st2 p with
        | (.ok oid, st3) => .ok (oid, st3)
        | (.errNotFound, _) => .error .cloudFileExists
        | (.errExists, _) => .error .cloudFileExists
        | (.errOther, _) => .error .providerError
termination_by pmeasure p
decreasing_by exact psplit_measure_lt p hpp

/-- Modelled from the spec: a minimal conforming provider state for the
directory operations (§4.1, §7): a table of existing directories; `mkdir`
raises Exists when the path is present and NotFound when the parent is
missing, otherwise creates with a fresh oid; `info_path` is a lookup.
The concrete providers of the repository are out of the provided source. -/
structure FS where
  dirs : List (PyStr × Nat) := []
  nextOid : Nat := 0
deriving DecidableEq, Repr

/-- `mkdir` of the minimal provider. -/
def fsMkdir (fs : FS) (p : PyStr) : MkdirRes × FS :=
  if (aget fs.dirs p).isSome then (.errExists, fs)
  else if (psplit p).1 = p ∨ (aget fs.dirs (psplit p).1).isSome then
    (.ok fs.nextOid, { dirs := aset fs.dirs p fs.nextOid, nextOid := fs.nextOid + 1 })
  else (.errNotFound, fs)

/-- `info_path` of the minimal provider. -/
def fsInfoPath (fs : FS) (p : PyStr) : Option Nat × FS :=
  (aget fs.dirs p, fs)

/-- The minimal provider bundled. -/
def fsOps : ProvOps FS := ⟨fsMkdir, fsInfoPath⟩

/-! ### Definitions used to state the claims. -/

/-- The round-trip property C2 claims of an entry `E`: serialization
succeeds, an entry constructed from `(id, serialize E)` matches `E`
field-by-field on both side states, `otype`, `temp_file` and `discarded`,
and re-serializing it yields the same serialized form. -/
def roundTrips (E : SyncEntry) : Prop :=
  ∃ d E2, serializeE E = .ok d ∧ deserializeEntry 1 d = .ok E2 ∧
    entryCore E2 = entryCore E ∧ serializeE E2 = .ok d

/-- An entry within C2's stated hypotheses (otype set, hashes byte strings
or absent, exists an enumeration value) whose `hash` is the empty byte
string `b""`. -/
def c2entry : SyncEntry :=
  { state0 := { SideState.new 0 with hash := some [] }
    state1 := SideState.new 1
    otype := some .FILE }

/-- A hash slot round-trips unless it is exactly the empty byte string. -/
abbrev hashOk (h : Option Bytes) : Prop := h ≠ some []

/-- A concrete entry discharging the hypotheses of the amended C2. -/
def c2wEntry : SyncEntry :=
  { state0 := { side := 0
                hash := some [7, 255]
                path := some "/a"
                oid := some "o1"
                exists_ := .EXISTS
                changed := some 12 }
    state1 := { side := 1
                sync_path := some "/b"
                exists_ := .TRASHED }
    otype := some .FILE
    temp_file := some "/tmp/x" }

/-- `SyncManager._create_synced` (sync.py lines 600-614) after a successful
provider `create` returned `info = (oid, hash, path)`: set the sync witness
fields on both sides and route the new oid and path through `update_entry`
with `exists=True`.  The provider call itself is abstracted into its
returned info. -/
def create_synced_success (st : SyncState) (entId : EntId) (changed synced : Nat)
    (info_oid : String) (info_hash : Option Bytes) (info_path : Option String)
    (translated_path : String) : Except PyErr SyncState :=
  match st.getEnt entId with
  | none => .ok st
  | some e =>
    let sp := if truthyS info_path then info_path else some translated_path
    let e := e.set synced { e.get synced with sync_hash := info_hash, sync_path := sp }
    let cs := e.get changed
    let e2 := e.set changed { cs with sync_hash := cs.hash, sync_path := cs.path }
    let st := st.setEnt entId e2
    update_entry st entId synced (some info_oid) sp none (some (.pybool true))

/-- The C1 scenario, driven entirely by the operations the claim lists: a
local create event (`update`), a successful sync to the remote side
(`_create_synced`), a local rename event (`update`), then the rename branch
of `handle_path_change_or_creation` with the translated remote path. -/
def c1Pipeline : Except PyErr SyncState := do
  let st1 ← updateOp_defaults emptyState 0 (some .FILE) "l1" (some "/l/a") 100
  let st2 ← create_synced_success st1 0 0 1 "r1" (some [1]) none "/r/a"
  let st4 ← updateOp_defaults st2 0 (some .FILE) "l1" (some "/l/b") 200
  let r ← renameBranch st4 0 0 1 "/r/b" (fun _ _ _ => .ok ())
  .ok r.1

/-- The entry fields the changeset invariant depends on: both `changed`
timestamps and the `discarded` flag. -/
def entMeta (e : SyncEntry) : Option Rat × Option Rat × Bool :=
  (e.state0.changed, e.state1.changed, e.discarded)

/-- Two states with the same changeset and the same invariant-relevant entry
fields at every entry id. -/
def metaEq (st st' : SyncState) : Prop :=
  st'.changeset = st.changeset ∧
  ∀ id, (st'.getEnt id).map entMeta = (st.getEnt id).map entMeta

/-- Every id stored in an oid index dereferences to an entry (true of every
reachable state; needed because `update` follows the index). -/
def OidsSound (st : SyncState) : Prop :=
  ∀ side k id, (k, id) ∈ st.oids side → ∃ e, st.getEnt id = some e

/-- The changeset invariant of C3 (amended): every non-discarded entry with
a truthy `changed` is in the changeset, every changeset member has a truthy
`changed` or is discarded, and the changeset has no duplicates (it models a
Python set). -/
def ChangesetInv (st : SyncState) : Prop :=
  (∀ id e, st.getEnt id = some e → e.discarded = false → entHasChanged e = true →
    id ∈ st.changeset) ∧
  (∀ id, id ∈ st.changeset → ∃ e, st.getEnt id = some e ∧
    (entHasChanged e = true ∨ e.discarded = true)) ∧
  st.changeset.Nodup

/-- Fresh entry ids really are fresh: nothing is stored at or above
`nextEid` (holds in every reachable state; `update` relies on it when it
creates an entry at `nextEid`). -/
def FreshEid (st : SyncState) : Prop :=
  ∀ id, st.nextEid ≤ id → st.getEnt id = none

/-- The conjunction carried through the reachability induction: the
changeset invariant together with the index-soundness and id-freshness
facts it depends on. -/
def GoodState (st : SyncState) : Prop :=
  ChangesetInv st ∧ OidsSound st ∧ FreshEid st

/-- States reachable by the public `SyncState` operations: construction
(empty, or rehydrating persisted rows none of which has a truthy `changed`
-- the amendment C3's counterexample forces), `update` (with a positive
wall-clock time), `update_entry`, `finished` (both the state's own and the
manager's wrapper that first clears one side), `discard`, the
discarded-entry removal inside `change`, and `storage_update`. -/
inductive Reach : SyncState → Prop where
  | empty : Reach emptyState
  | fromStorage (rows : List (Nat × SerDict)) (st : SyncState)
      (hrows : ∀ r ∈ rows, ¬ truthyT r.2.side0.changed = true ∧
        ¬ truthyT r.2.side1.changed = true)
      (h : rehydrateInit rows = .ok st) : Reach st
  | update (st st' : SyncState) (side : Nat) (otype : Option OType) (oid : String)
      (path : Option String) (hashArg : Option Bytes) (ex : Option ExVal) (now : Rat)
      (hr : Reach st) (hnow : 0 < now)
      (h : updateOp st side otype oid path hashArg ex now = .ok st') : Reach st'
  | updateEntry (st st' : SyncState) (entId : EntId) (side : Nat) (oid path : Option String)
      (hashArg : Option Bytes) (ex : Option ExVal)
      (hr : Reach st) (h : update_entry st entId side oid path hashArg ex = .ok st') :
      Reach st'
  | finished (st st' : SyncState) (entId : EntId)
      (hr : Reach st) (h : finishedOp st entId = .ok st') : Reach st'
  | managerFinished (st st' : SyncState) (side : Nat) (entId : EntId)
      (hr : Reach st) (h : manager_finished st side entId = .ok st') : Reach st'
  | discard (st : SyncState) (entId : EntId) (hr : Reach st) : Reach (discardOp st entId)
  | changeSample (st : SyncState) (entId : EntId) (e : SyncEntry)
      (hr : Reach st) (hmem : entId ∈ st.changeset) (hent : st.getEnt entId = some e)
      (hdisc : e.discarded = true) : Reach (changeStep st entId)
  | storageUpd (st st' : SyncState) (entId : EntId)
      (hr : Reach st) (h : storage_update st entId = .ok st') : Reach st'

/-- A persisted row with a truthy `changed` on side 0 (the C3
counterexample input). -/
def c3row : SerDict :=
  { side0 := { side := 0
               hash := none
               changed := some 5
               sync_hash := none
               path := some "/a"
               sync_path := some "/a"
               oid := some "o1"
               exists_ := some true }
    side1 := { side := 1
               hash := none
               changed := none
               sync_hash := none
               path := none
               sync_path := none
               oid := none
               exists_ := none }
    otype := .FILE
    temp_file := none
    discarded := false }

/-- A clean (non-dirty) persisted entry for the C4 counterexample. -/
def c4entry : SyncEntry :=
  { state0 := SideState.new 0
    state1 := SideState.new 1
    otype := some .FILE
    storage_id := some 5
    dirty := false }

/-- A stored row that differs from `c4entry`'s serialization. -/
def c4dictOld : SerDict :=
  { side0 := side_state_to_dict (SideState.new 0)
    side1 := side_state_to_dict (SideState.new 1)
    otype := .DIRECTORY
    temp_file := none
    discarded := false }

/-- A state holding `c4entry` (clean) over a storage whose row 5 differs
from the entry's serialization. -/
def c4state : SyncState :=
  { entries := [(0, c4entry)]
    storage := some [(5, c4dictOld)]
    nextEid := 1
    nextSid := 6 }

/-- The C7 witness entry: side 0 trashed and changed, side 1 previously
synced with a known oid. -/
def c7entry : SyncEntry :=
  { state0 := { side := 0
                path := some "/x"
                oid := some "lo"
                sync_path := some "/x"
                changed := some 9
                exists_ := .TRASHED }
    state1 := { side := 1
                path := some "/rx"
                oid := some "ro"
                sync_path := some "/rx"
                exists_ := .EXISTS }
    otype := some .FILE }

/-- The C7 witness state: `c7entry` is the only entry at its path. -/
def c7state : SyncState :=
  { entries := [(0, c7entry)]
    oids0 := [(some "lo", 0)]
    oids1 := [(some "ro", 0)]
    paths0 := [(some "/x", [(some "lo", 0)])]
    paths1 := [(some "/rx", [(some "ro", 0)])]
    changeset := [0]
    nextEid := 1 }

/-- The C6 witness entry: both sides moved to distinct paths, each away
from its sync path. -/
def c6entry : SyncEntry :=
  { state0 := { side := 0
                path := some "/p-l"
                oid := some "lo"
                sync_path := some "/p"
                changed := some 3
                exists_ := .EXISTS }
    state1 := { side := 1
                path := some "/p-r"
                oid := some "ro"
                sync_path := some "/p"
                changed := some 4
                exists_ := .EXISTS }
    otype := some .FILE }

/-- The C6 witness state holding `c6entry` fully indexed. -/
def c6state : SyncState :=
  { entries := [(0, c6entry)]
    oids0 := [(some "lo", 0)]
    oids1 := [(some "ro", 0)]
    paths0 := [(some "/p-l", [(some "lo", 0)])]
    paths1 := [(some "/p-r", [(some "ro", 0)])]
    changeset := [0]
    nextEid := 1 }

/-- The translator used by the C6 witness. -/
def c6translate : Nat → String → Option String := fun _ p => some ("/t" ++ p)

/-- A provider rename oracle that always succeeds. -/
def c6ren : Nat → Option String → String → Except PyErr Unit := fun _ _ _ => .ok ()

/-! ### Theorems for the claims. -/

theorem aget_aset_self {κ α : Type} [DecidableEq κ] (l : List (κ × α)) (k : κ) (v : α) :
    aget (aset l k v) k = some v := by
  induction l with
  | nil => simp [aget, aset]
  | cons h t ih =>
    obtain ⟨k0, v0⟩ := h
    by_cases hk : k = k0
    · simp [aget, aset, hk]
    · simp [aget, aset, hk, ih, Ne.symm hk]

theorem aget_aset_ne {κ α : Type} [DecidableEq κ] (l : List (κ × α)) (k k' : κ) (v : α)
    (h : k' ≠ k) : aget (aset l k v) k' = aget l k' := by
  induction l with
  | nil => simp [aget, aset, h]
  | cons hd t ih =>
    obtain ⟨k0, v0⟩ := hd
    by_cases hk : k = k0
    · subst hk
      simp [aget, aset, h]
    · by_cases hk' : k' = k0 <;> simp [aget, aset, hk, hk', ih]

theorem hexVal_digitChar : ∀ n : Fin 16, hexVal (Nat.digitChar n.val) = some n := by
  decide

theorem bytesFromHex_bytesHex (bs : Bytes) : bytesFromHex (bytesHex bs) = some bs := by
  induction bs with
  | nil => rfl
  | cons b t ih =>
    have h1 : hexVal (Nat.digitChar (b.val / 16)) = some ⟨b.val / 16, by omega⟩ :=
      hexVal_digitChar ⟨b.val / 16, by omega⟩
    have h2 : hexVal (Nat.digitChar (b.val % 16)) = some ⟨b.val % 16, by omega⟩ :=
      hexVal_digitChar ⟨b.val % 16, by omega⟩
    have hb : mkByte ⟨b.val / 16, by omega⟩ ⟨b.val % 16, by omega⟩ = b := by
      apply Fin.ext
      simp [mkByte]
      omega
    simp [bytesHex, byteHex] at *
    simp [bytesFromHex, h1, h2, ih, hb]

theorem getEnt_setEnt_self (st : SyncState) (i : EntId) (e : SyncEntry) :
    (st.setEnt i e).getEnt i = some e := by
  simp [SyncState.setEnt, SyncState.getEnt, aget_aset_self]

theorem getEnt_setEnt_ne (st : SyncState) (i j : EntId) (e : SyncEntry) (h : j ≠ i) :
    (st.setEnt i e).getEnt j = st.getEnt j := by
  simp [SyncState.setEnt, SyncState.getEnt, aget_aset_ne _ _ _ _ h]

@[simp] theorem setEnt_changeset (st : SyncState) (i : EntId) (e : SyncEntry) :
    (st.setEnt i e).changeset = st.changeset := rfl

@[simp] theorem setEnt_storage (st : SyncState) (i : EntId) (e : SyncEntry) :
    (st.setEnt i e).storage = st.storage := rfl

@[simp] theorem setEnt_oids (st : SyncState) (i : EntId) (e : SyncEntry) (q : Nat) :
    (st.setEnt i e).oids q = st.oids q := rfl

@[simp] theorem setEnt_pathsIdx (st : SyncState) (i : EntId) (e : SyncEntry) (q : Nat) :
    (st.setEnt i e).pathsIdx q = st.pathsIdx q := rfl

@[simp] theorem setOidsIdx_entries (st : SyncState) (side : Nat) (m : OidsMap) :
    (st.setOidsIdx side m).entries = st.entries := by
  unfold SyncState.setOidsIdx
  split <;> rfl

@[simp] theorem setOidsIdx_getEnt (st : SyncState) (side : Nat) (m : OidsMap) (i : EntId) :
    (st.setOidsIdx side m).getEnt i = st.getEnt i := by
  unfold SyncState.getEnt
  rw [setOidsIdx_entries]

@[simp] theorem setOidsIdx_changeset (st : SyncState) (side : Nat) (m : OidsMap) :
    (st.setOidsIdx side m).changeset = st.changeset := by
  unfold SyncState.setOidsIdx
  split <;> rfl

@[simp] theorem setOidsIdx_pathsIdx (st : SyncState) (side : Nat) (m : OidsMap) (q : Nat) :
    (st.setOidsIdx side m).pathsIdx q = st.pathsIdx q := by
  unfold SyncState.setOidsIdx SyncState.pathsIdx
  by_cases h : side = 0 <;> by_cases hq : q = 0 <;> simp [h, hq]

@[simp] theorem setPathsIdx_entries (st : SyncState) (side : Nat) (m : PathsMap) :
    (st.setPathsIdx side m).entries = st.entries := by
  unfold SyncState.setPathsIdx
  split <;> rfl

@[simp] theorem setPathsIdx_getEnt (st : SyncState) (side : Nat) (m : PathsMap) (i : EntId) :
    (st.setPathsIdx side m).getEnt i = st.getEnt i := by
  unfold SyncState.getEnt
  rw [setPathsIdx_entries]

@[simp] theorem setPathsIdx_changeset (st : SyncState) (side : Nat) (m : PathsMap) :
    (st.setPathsIdx side m).changeset = st.changeset := by
  unfold SyncState.setPathsIdx
  split <;> rfl

@[simp] theorem setPathsIdx_oids (st : SyncState) (side : Nat) (m : PathsMap) (q : Nat) :
    (st.setPathsIdx side m).oids q = st.oids q := by
  unfold SyncState.setPathsIdx SyncState.oids
  by_cases h : side = 0 <;> by_cases hq : q = 0 <;> simp [h, hq]

theorem oids_setOidsIdx (st : SyncState) (side : Nat) (m : OidsMap) (q : Nat) :
    (st.setOidsIdx side m).oids q = if (q = 0) = (side = 0) then m else st.oids q := by
  unfold SyncState.setOidsIdx SyncState.oids
  by_cases h : side = 0 <;> by_cases hq : q = 0 <;> simp [h, hq]

theorem pathsIdx_setPathsIdx (st : SyncState) (side : Nat) (m : PathsMap) (q : Nat) :
    (st.setPathsIdx side m).pathsIdx q = if (q = 0) = (side = 0) then m else st.pathsIdx q := by
  unfold SyncState.setPathsIdx SyncState.pathsIdx
  by_cases h : side = 0 <;> by_cases hq : q = 0 <;> simp [h, hq]

theorem get_set_self (e : SyncEntry) (i : Nat) (s : SideState) :
    (e.set i s).get i = s := by
  unfold SyncEntry.get SyncEntry.set
  by_cases h : i = 0 <;> simp [h]

@[simp] theorem markDirty_get (e : SyncEntry) (i : Nat) :
    (markDirty e).get i = e.get i := by
  unfold markDirty SyncEntry.get
  by_cases h : i = 0 <;> simp [h]

@[simp] theorem expure {α : Type} (a : α) : (pure a : Except PyErr α) = .ok a := rfl

@[simp] theorem exbind_ok {α β : Type} (a : α) (f : α → Except PyErr β) :
    (Except.ok a >>= f) = f a := rfl

@[simp] theorem exbind_err {α β : Type} (err : PyErr) (f : α → Except PyErr β) :
    ((Except.error err : Except PyErr α) >>= f) = .error err := rfl

theorem mem_aset_elim {κ α : Type} [DecidableEq κ] {l : List (κ × α)} {k : κ} {v : α}
    {p : κ × α} (h : p ∈ aset l k v) : p ∈ l ∨ p = (k, v) := by
  induction l with
  | nil => simp [aset] at h; exact .inr h
  | cons hd t ih =>
    obtain ⟨k0, v0⟩ := hd
    by_cases hk : k = k0
    · simp [aset, hk] at h
      rcases h with h | h
      · exact .inr (by simp [h, hk])
      · exact .inl (by simp [h])
    · simp [aset, hk] at h
      rcases h with h | h
      · exact .inl (by simp [h])
      · rcases ih h with h2 | h2
        · exact .inl (by simp [h2])
        · exact .inr h2

theorem mem_adel_elim {κ α : Type} [DecidableEq κ] {l : List (κ × α)} {k : κ}
    {p : κ × α} (h : p ∈ adel l k) : p ∈ l := by
  induction l with
  | nil => simp [adel] at h
  | cons hd t ih =>
    obtain ⟨k0, v0⟩ := hd
    by_cases hk : k = k0
    · simp [adel, hk] at h
      simp [h]
    · simp [adel, hk] at h
      rcases h with h | h
      · simp [h]
      · simp [ih h]

theorem aget_mem {κ α : Type} [DecidableEq κ] {l : List (κ × α)} {k : κ} {v : α}
    (h : aget l k = some v) : (k, v) ∈ l := by
  induction l with
  | nil => simp [aget] at h
  | cons hd t ih =>
    obtain ⟨k0, v0⟩ := hd
    by_cases hk : k = k0
    · simp [aget, hk] at h
      simp [hk, h]
    · simp [aget, hk] at h
      simp [ih h]

theorem mem_map_snd_aset {κ α : Type} [DecidableEq κ] (l : List (κ × α)) (k : κ) (v : α) :
    v ∈ (aset l k v).map Prod.snd := by
  induction l with
  | nil => simp [aset]
  | cons hd t ih =>
    obtain ⟨k0, v0⟩ := hd
    by_cases hk : k = k0 <;> simp [aset, hk, ih]

/-! Meta-preservation: the operations that do not touch `changed`,
`discarded` or the changeset. -/

theorem metaEq_refl (st : SyncState) : metaEq st st := ⟨rfl, fun _ => rfl⟩

theorem metaEq_trans {a b c : SyncState} (h1 : metaEq a b) (h2 : metaEq b c) : metaEq a c :=
  ⟨h2.1.trans h1.1, fun id => (h2.2 id).trans (h1.2 id)⟩

theorem metaEq_setOidsIdx (st : SyncState) (side : Nat) (m : OidsMap) :
    metaEq st (st.setOidsIdx side m) := ⟨by simp, fun j => by simp⟩

theorem metaEq_setPathsIdx (st : SyncState) (side : Nat) (m : PathsMap) :
    metaEq st (st.setPathsIdx side m) := ⟨by simp, fun j => by simp⟩

theorem metaEq_setEnt (st : SyncState) (id : EntId) (e e' : SyncEntry)
    (hent : st.getEnt id = some e) (hm : entMeta e' = entMeta e) :
    metaEq st (st.setEnt id e') := by
  refine ⟨rfl, fun j => ?_⟩
  by_cases hj : j = id
  · subst hj
    rw [getEnt_setEnt_self, hent]
    simp [hm]
  · rw [getEnt_setEnt_ne _ _ _ _ hj]

theorem metaEq_getEnt_some {st st' : SyncState} (h : metaEq st st') {id : EntId}
    {e : SyncEntry} (he : st.getEnt id = some e) :
    ∃ e', st'.getEnt id = some e' ∧ entMeta e' = entMeta e := by
  have hmap := h.2 id
  rw [he] at hmap
  cases hx : st'.getEnt id with
  | none => rw [hx] at hmap; simp at hmap
  | some e' =>
    rw [hx] at hmap
    simp at hmap
    exact ⟨e', rfl, hmap⟩

theorem entMeta_set_side (e : SyncEntry) (i : Nat) (s : SideState)
    (hc : s.changed = (e.get i).changed) :
    entMeta (markDirty (e.set i s)) = entMeta e := by
  unfold entMeta markDirty SyncEntry.set SyncEntry.get at *
  by_cases h : i = 0 <;> simp [h] at hc ⊢ <;> simp [hc]

theorem metaEq_oids1_setEnt (st : SyncState) (side : Nat) (m : OidsMap) (id : EntId)
    (e e' : SyncEntry) (hent : st.getEnt id = some e) (hm : entMeta e' = entMeta e) :
    metaEq st ((st.setOidsIdx side m).setEnt id e') := by
  refine ⟨by simp, fun j => ?_⟩
  by_cases hj : j = id
  · subst hj
    rw [getEnt_setEnt_self]
    simp [hent, hm]
  · rw [getEnt_setEnt_ne _ _ _ _ hj]
    simp

theorem metaEq_oids2_setEnt (st : SyncState) (side side2 : Nat) (m1 m2 : OidsMap)
    (id : EntId) (e e' : SyncEntry) (hent : st.getEnt id = some e)
    (hm : entMeta e' = entMeta e) :
    metaEq st (((st.setOidsIdx side m1).setOidsIdx side2 m2).setEnt id e') := by
  refine ⟨by simp, fun j => ?_⟩
  by_cases hj : j = id
  · subst hj
    rw [getEnt_setEnt_self]
    simp [hent, hm]
  · rw [getEnt_setEnt_ne _ _ _ _ hj]
    simp

theorem metaEq_paths1_setEnt (st : SyncState) (side : Nat) (m : PathsMap) (id : EntId)
    (e e' : SyncEntry) (hent : st.getEnt id = some e) (hm : entMeta e' = entMeta e) :
    metaEq st ((st.setPathsIdx side m).setEnt id e') := by
  refine ⟨by simp, fun j => ?_⟩
  by_cases hj : j = id
  · subst hj
    rw [getEnt_setEnt_self]
    simp [hent, hm]
  · rw [getEnt_setEnt_ne _ _ _ _ hj]
    simp

theorem change_oid_metaEq (st : SyncState) (side : Nat) (entId : EntId) (o : String) :
    metaEq st (change_oid st side entId o) := by
  unfold change_oid
  cases hent : st.getEnt entId with
  | none => exact metaEq_refl st
  | some e =>
    by_cases ht : truthyS (e.get side).oid <;> by_cases ho : o = "" <;> simp [ht, ho] <;>
      first
      | exact metaEq_refl st
      | exact metaEq_setOidsIdx st side _
      | exact metaEq_oids2_setEnt st side side _ _ entId e _ hent
          (entMeta_set_side e side _ rfl)
      | exact metaEq_oids1_setEnt st side _ entId e _ hent (entMeta_set_side e side _ rfl)

theorem remove_old_path_shape (st : SyncState) (side : Nat) (op okey : Option String)
    (st' : SyncState) (h : remove_old_path st side op okey = .ok st') :
    st' = st ∨ ∃ pm, st' = st.setPathsIdx side pm := by
  unfold remove_old_path at h
  by_cases ht : truthyS op
  · simp only [ht, if_true] at h
    split at h
    · cases h
      exact .inr ⟨_, rfl⟩
    · cases h
  · simp only [ht, if_false, Bool.false_eq_true] at h
    cases h
    exact .inl rfl

theorem remove_old_path_metaEq (st : SyncState) (side : Nat) (op okey : Option String)
    (st' : SyncState) (h : remove_old_path st side op okey = .ok st') : metaEq st st' := by
  rcases remove_old_path_shape st side op okey st' h with h2 | ⟨pm, h2⟩
  · rw [h2]
    exact metaEq_refl st
  · rw [h2]
    exact metaEq_setPathsIdx st side pm

theorem remove_old_path_getEnt (st : SyncState) (side : Nat) (op okey : Option String)
    (st' : SyncState) (h : remove_old_path st side op okey = .ok st') (id : EntId) :
    st'.getEnt id = st.getEnt id := by
  rcases remove_old_path_shape st side op okey st' h with h2 | ⟨pm, h2⟩ <;> rw [h2] <;> simp

theorem change_path_metaEq (st : SyncState) (side : Nat) (entId : EntId) (p : String)
    (st' : SyncState) (h : change_path st side entId p = .ok st') : metaEq st st' := by
  unfold change_path at h
  cases hent : st.getEnt entId with
  | none =>
    simp only [hent] at h
    cases h
    exact metaEq_refl st
  | some e =>
    simp only [hent] at h
    by_cases ho : truthyS (e.get side).oid
    · simp only [ho, Bool.not_true, Bool.false_eq_true, if_false] at h
      cases hrm : remove_old_path st side (e.get side).path (e.get side).oid with
      | error err =>
        rw [hrm] at h
        simp at h
      | ok st1 =>
        rw [hrm] at h
        have hm1 := remove_old_path_metaEq _ _ _ _ _ hrm
        simp only [exbind_ok] at h
        by_cases hp : p = ""
        · simp [hp] at h
          rw [← h]
          exact hm1
        · simp [hp] at h
          rw [← h]
          refine metaEq_trans hm1
            (metaEq_paths1_setEnt st1 side _ entId e _ ?_ (entMeta_set_side e side _ rfl))
          rw [remove_old_path_getEnt _ _ _ _ _ hrm]
          exact hent
    · simp [ho] at h

theorem set_hash_field_metaEq (st : SyncState) (entId : EntId) (side : Nat) (hb : Bytes) :
    metaEq st (set_hash_field st entId side hb) := by
  unfold set_hash_field
  cases hent : st.getEnt entId with
  | none => exact metaEq_refl st
  | some e => exact metaEq_setEnt _ _ e _ hent (entMeta_set_side e side _ rfl)

theorem set_exists_field_metaEq (st : SyncState) (entId : EntId) (side : Nat) (v : Exists) :
    metaEq st (set_exists_field st entId side v) := by
  unfold set_exists_field
  cases hent : st.getEnt entId with
  | none => exact metaEq_refl st
  | some e => exact metaEq_setEnt _ _ e _ hent (entMeta_set_side e side _ rfl)

theorem exists_step_metaEq (stA : SyncState) (entId : EntId) (side : Nat)
    (ex : Option ExVal) (st' : SyncState)
    (h : (match ex with
          | some v => do
              let exv ← exists_setter v
              pure (set_exists_field stA entId side exv)
          | none => pure stA) = .ok st') : metaEq stA st' := by
  cases ex with
  | none =>
    simp at h
    rw [← h]
    exact metaEq_refl stA
  | some v =>
    cases hse : exists_setter v with
    | error err => simp [hse] at h
    | ok exv =>
      simp [hse] at h
      rw [← h]
      exact set_exists_field_metaEq stA entId side exv

theorem bind_metaEq_aux (x : Except PyErr SyncState) (k : SyncState → Except PyErr SyncState)
    (stA st' : SyncState) (hx : ∀ stB, x = .ok stB → metaEq stA stB)
    (hk : ∀ stB stC, k stB = .ok stC → metaEq stB stC)
    (h : x >>= k = .ok st') : metaEq stA st' := by
  cases hxv : x with
  | error err =>
    rw [hxv] at h
    simp at h
  | ok stB =>
    rw [hxv] at h
    simp only [exbind_ok] at h
    exact metaEq_trans (hx stB hxv) (hk stB st' h)

theorem update_entry_cont_metaEq (st1 : SyncState) (entId : EntId) (side : Nat)
    (hashArg : Option Bytes) (ex : Option ExVal) (st' : SyncState)
    (h : (match ex with
          | some v => do
              let exv ← exists_setter v
              pure (set_exists_field (match hashArg with
                                      | some hb => set_hash_field st1 entId side hb
                                      | none => st1) entId side exv)
          | none => pure (match hashArg with
                          | some hb => set_hash_field st1 entId side hb
                          | none => st1)) = .ok st') :
    metaEq st1 st' := by
  cases hashArg with
  | some hb =>
    exact metaEq_trans (set_hash_field_metaEq st1 entId side hb)
      (exists_step_metaEq (set_hash_field st1 entId side hb) entId side ex st' h)
  | none =>
    exact exists_step_metaEq st1 entId side ex st' h

theorem update_entry_metaEq (st : SyncState) (entId : EntId) (side : Nat)
    (oid path : Option String) (hashArg : Option Bytes) (ex : Option ExVal)
    (st' : SyncState) (h : update_entry st entId side oid path hashArg ex = .ok st') :
    metaEq st st' := by
  unfold update_entry at h
  have hpure : ∀ st0 stB : SyncState, (pure st0 : Except PyErr SyncState) = .ok stB →
      metaEq st0 stB := by
    intro st0 stB hb
    simp at hb
    rw [← hb]
    exact metaEq_refl st0
  cases oid with
  | none =>
    cases path with
    | none =>
      refine bind_metaEq_aux (pure st) _ st st' (hpure st) ?_ h
      intro stB stC hc
      exact update_entry_cont_metaEq stB entId side hashArg ex stC hc
    | some p =>
      refine bind_metaEq_aux (change_path st side entId p) _ st st' ?_ ?_ h
      · intro stB hb
        exact change_path_metaEq st side entId p stB hb
      · intro stB stC hc
        exact update_entry_cont_metaEq stB entId side hashArg ex stC hc
  | some o =>
    cases path with
    | none =>
      refine metaEq_trans (change_oid_metaEq st side entId o) ?_
      refine bind_metaEq_aux (pure (change_oid st side entId o)) _ _ st'
        (hpure (change_oid st side entId o)) ?_ h
      intro stB stC hc
      exact update_entry_cont_metaEq stB entId side hashArg ex stC hc
    | some p =>
      refine metaEq_trans (change_oid_metaEq st side entId o) ?_
      refine bind_metaEq_aux (change_path (change_oid st side entId o) side entId p) _ _ st'
        ?_ ?_ h
      · intro stB hb
        exact change_path_metaEq (change_oid st side entId o) side entId p stB hb
      · intro stB stC hc
        exact update_entry_cont_metaEq stB entId side hashArg ex stC hc

theorem metaEq_storage_setEnt (st : SyncState) (X : Option (List (Nat × SerDict))) (n : Nat)
    (id : EntId) (e e' : SyncEntry) (hent : st.getEnt id = some e)
    (hm : entMeta e' = entMeta e) :
    metaEq st (({ st with storage := X, nextSid := n }).setEnt id e') := by
  refine ⟨rfl, fun j => ?_⟩
  by_cases hj : j = id
  · subst hj
    rw [getEnt_setEnt_self, hent]
    simp [hm]
  · rw [getEnt_setEnt_ne _ _ _ _ hj]
    rfl

theorem storage_update_metaEq (st : SyncState) (entId : EntId) (st' : SyncState)
    (h : storage_update st entId = .ok st') : metaEq st st' := by
  unfold storage_update at h
  cases hst : st.storage with
  | none =>
    simp only [hst] at h
    cases h
    exact metaEq_refl st
  | some store =>
    simp only [hst] at h
    cases hent : st.getEnt entId with
    | none =>
      simp only [hent] at h
      cases h
      exact metaEq_refl st
    | some e =>
      simp only [hent] at h
      cases hsid : e.storage_id with
      | some sid =>
        simp only [hsid] at h
        cases hdisc : e.discarded with
        | true =>
          simp [hdisc] at h
          rw [← h]
          exact metaEq_storage_setEnt st _ st.nextSid entId e _ hent (by simp [entMeta, hdisc])
        | false =>
          cases hser : serializeE e with
          | error err => simp [hdisc, hser] at h
          | ok D =>
            simp [hdisc, hser] at h
            rw [← h]
            exact metaEq_storage_setEnt st _ st.nextSid entId e _ hent (by simp [entMeta, hdisc])
      | none =>
        simp only [hsid] at h
        cases hdisc : e.discarded with
        | true => simp [hdisc] at h
        | false =>
          cases hser : serializeE e with
          | error err => simp [hdisc, hser] at h
          | ok D =>
            simp [hdisc, hser] at h
            rw [← h]
            exact metaEq_storage_setEnt st _ (st.nextSid + 1) entId e _ hent (by simp [entMeta, hdisc])

theorem pathsIdx_setPathsIdx_self (st : SyncState) (side : Nat) (m : PathsMap) :
    (st.setPathsIdx side m).pathsIdx side = m := by
  rw [pathsIdx_setPathsIdx]
  simp

theorem set_exists_field_post (stA : SyncState) (entId : EntId) (side : Nat) (v : Exists)
    (e : SyncEntry) (hent : stA.getEnt entId = some e) :
    ∃ e', (set_exists_field stA entId side v).getEnt entId = some e' ∧
      (e'.get side).exists_ = v ∧ (e'.get side).path = (e.get side).path ∧
      (∀ q, (set_exists_field stA entId side v).pathsIdx q = stA.pathsIdx q) := by
  unfold set_exists_field
  simp only [hent]
  refine ⟨_, getEnt_setEnt_self _ _ _, ?_, ?_, fun q => by simp⟩
  · rw [markDirty_get, get_set_self]
  · rw [markDirty_get, get_set_self]

theorem change_path_post (st : SyncState) (side : Nat) (entId : EntId) (p : String)
    (st' : SyncState) (e : SyncEntry)
    (hent : st.getEnt entId = some e) (hp : p ≠ "")
    (h : change_path st side entId p = .ok st') :
    ∃ e1, st'.getEnt entId = some e1 ∧ (e1.get side).path = some p ∧
      entId ∈ lookup_path st' side (some p) := by
  unfold change_path at h
  simp only [hent] at h
  by_cases ho : truthyS (e.get side).oid
  · simp only [ho, Bool.not_true, Bool.false_eq_true, if_false] at h
    cases hrm : remove_old_path st side (e.get side).path (e.get side).oid with
    | error err =>
      rw [hrm] at h
      simp at h
    | ok st1 =>
      rw [hrm] at h
      simp only [exbind_ok] at h
      simp [hp] at h
      rw [← h]
      refine ⟨markDirty (e.set side { e.get side with path := some p }),
              getEnt_setEnt_self _ _ _, ?_, ?_⟩
      · rw [markDirty_get, get_set_self]
      · unfold lookup_path
        rw [setEnt_pathsIdx, pathsIdx_setPathsIdx_self, aget_aset_self]
        exact mem_map_snd_aset _ _ _
  · simp [ho] at h

theorem bind_post_aux (P : SyncState → Prop) (x : Except PyErr SyncState)
    (k : SyncState → Except PyErr SyncState) (st' : SyncState)
    (hk : ∀ stB stC, x = .ok stB → k stB = .ok stC → P stC)
    (h : x >>= k = .ok st') : P st' := by
  cases hxv : x with
  | error err =>
    rw [hxv] at h
    simp at h
  | ok stB =>
    rw [hxv] at h
    simp only [exbind_ok] at h
    exact hk stB st' hxv h

theorem update_entry_cont_true_exists (st1 : SyncState) (entId : EntId) (side : Nat)
    (hashArg : Option Bytes) (st' : SyncState) (e1 : SyncEntry)
    (hent : st1.getEnt entId = some e1)
    (h : (match (some (ExVal.pybool true) : Option ExVal) with
          | some v => do
              let exv ← exists_setter v
              pure (set_exists_field (match hashArg with
                                      | some hb => set_hash_field st1 entId side hb
                                      | none => st1) entId side exv)
          | none => pure (match hashArg with
                          | some hb => set_hash_field st1 entId side hb
                          | none => st1)) = .ok st') :
    ∃ e', st'.getEnt entId = some e' ∧ (e'.get side).exists_ = .EXISTS := by
  cases hashArg with
  | some hb =>
    have h2 : Except.ok (set_exists_field (set_hash_field st1 entId side hb)
        entId side .EXISTS) = .ok st' := h
    cases h2
    obtain ⟨eM, heM, -⟩ := metaEq_getEnt_some (set_hash_field_metaEq st1 entId side hb) hent
    obtain ⟨e', h1, h2e, -, -⟩ := set_exists_field_post _ entId side .EXISTS eM heM
    exact ⟨e', h1, h2e⟩
  | none =>
    have h2 : Except.ok (set_exists_field st1 entId side .EXISTS) = .ok st' := h
    cases h2
    obtain ⟨e', h1, h2e, -, -⟩ := set_exists_field_post st1 entId side .EXISTS e1 hent
    exact ⟨e', h1, h2e⟩

theorem update_entry_true_exists (st : SyncState) (entId : EntId) (side : Nat)
    (oid path : Option String) (hashArg : Option Bytes) (st' : SyncState) (e : SyncEntry)
    (hent : st.getEnt entId = some e)
    (h : update_entry st entId side oid path hashArg (some (.pybool true)) = .ok st') :
    ∃ e', st'.getEnt entId = some e' ∧ (e'.get side).exists_ = .EXISTS := by
  unfold update_entry at h
  cases oid with
  | none =>
    cases path with
    | none =>
      exact update_entry_cont_true_exists st entId side hashArg st' e hent h
    | some p =>
      refine bind_post_aux
        (fun s => ∃ e', s.getEnt entId = some e' ∧ (e'.get side).exists_ = .EXISTS)
        (change_path st side entId p) _ st' ?_ h
      intro stB stC hB hC
      obtain ⟨e1, he1, -⟩ := metaEq_getEnt_some (change_path_metaEq st side entId p stB hB)
        hent
      exact update_entry_cont_true_exists stB entId side hashArg stC e1 he1 hC
  | some o =>
    obtain ⟨e0, he0, -⟩ := metaEq_getEnt_some (change_oid_metaEq st side entId o) hent
    cases path with
    | none =>
      exact update_entry_cont_true_exists (change_oid st side entId o) entId side hashArg
        st' e0 he0 h
    | some p =>
      refine bind_post_aux
        (fun s => ∃ e', s.getEnt entId = some e' ∧ (e'.get side).exists_ = .EXISTS)
        (change_path (change_oid st side entId o) side entId p) _ st' ?_ h
      intro stB stC hB hC
      obtain ⟨e1, he1, -⟩ := metaEq_getEnt_some
        (change_path_metaEq (change_oid st side entId o) side entId p stB hB) he0
      exact update_entry_cont_true_exists stB entId side hashArg stC e1 he1 hC

theorem update_entry_defaults_path (st : SyncState) (entId : EntId) (side : Nat)
    (oid : Option String) (p : String) (st' : SyncState) (e : SyncEntry)
    (hent : st.getEnt entId = some e) (hp : p ≠ "")
    (h : update_entry_defaults st entId side oid (some p) = .ok st') :
    ∃ e', st'.getEnt entId = some e' ∧ (e'.get side).path = some p ∧
      (e'.get side).exists_ = .EXISTS ∧ entId ∈ lookup_path st' side (some p) := by
  unfold update_entry_defaults update_entry at h
  have main : ∀ st0 : SyncState, (st0.getEnt entId).isSome = true →
      ∀ stB stC, change_path st0 side entId p = .ok stB →
        (Except.ok (set_exists_field stB entId side .EXISTS) : Except PyErr SyncState) =
          .ok stC →
        ∃ e', stC.getEnt entId = some e' ∧ (e'.get side).path = some p ∧
          (e'.get side).exists_ = .EXISTS ∧ entId ∈ lookup_path stC side (some p) := by
    intro st0 hs0 stB stC hB hC
    obtain ⟨e0, he0⟩ := Option.isSome_iff_exists.mp hs0
    obtain ⟨e1, he1, hpath1, hmem1⟩ := change_path_post st0 side entId p stB e0 he0 hp hB
    cases hC
    obtain ⟨e', h1, h2e, h3, h4⟩ := set_exists_field_post stB entId side .EXISTS e1 he1
    refine ⟨e', h1, ?_, h2e, ?_⟩
    · rw [h3, hpath1]
    · unfold lookup_path at hmem1 ⊢
      rw [h4 side]
      exact hmem1
  cases oid with
  | none =>
    refine bind_post_aux
      (fun s => ∃ e', s.getEnt entId = some e' ∧ (e'.get side).path = some p ∧
        (e'.get side).exists_ = .EXISTS ∧ entId ∈ lookup_path s side (some p))
      (change_path st side entId p) _ st' ?_ h
    intro stB stC hB hC
    exact main st (by simp [hent]) stB stC hB hC
  | some o =>
    obtain ⟨e0, he0, -⟩ := metaEq_getEnt_some (change_oid_metaEq st side entId o) hent
    refine bind_post_aux
      (fun s => ∃ e', s.getEnt entId = some e' ∧ (e'.get side).path = some p ∧
        (e'.get side).exists_ = .EXISTS ∧ entId ∈ lookup_path s side (some p))
      (change_path (change_oid st side entId o) side entId p) _ st' ?_ h
    intro stB stC hB hC
    exact main (change_oid st side entId o) (by simp [he0]) stB stC hB hC

/-- C4 counterexample: `storage_update` has no dirty guard -- called on a
clean entry it still rewrites the storage row, so it does not act "only
when E is dirty". -/
theorem c4_storage_update_counterexample :
    c4entry.dirty = false ∧
    (storage_update c4state 0).map (fun st => st.storage) ≠ .ok c4state.storage := by
  decide

/-- C4 amended: with a storage attached, `storage_update` acts regardless
of `dirty` (the source has no dirty check; the counterexample forces
dropping that guard): afterwards the entry is clean; a discarded persisted
entry's row is deleted; a non-discarded entry's serialization is upserted
at its `storage_id`, assigned from a fresh row id on the first insert, so
that `read_all` yields the serialization at that id.  (A discarded
never-persisted entry is excluded: it trips `assert not ent.discarded`.) -/
theorem c4_storage_update_amended (st : SyncState) (entId : EntId) (e : SyncEntry)
    (store : List (Nat × SerDict))
    (hstore : st.storage = some store)
    (hent : st.getEnt entId = some e)
    (hot : e.otype.isSome)
    (hnd : ¬ (e.discarded = true ∧ e.storage_id = none)) :
    ∃ st', storage_update st entId = .ok st' ∧
      (∃ e', st'.getEnt entId = some e' ∧ e'.dirty = false) ∧
      (∀ sid, e.storage_id = some sid → e.discarded = true →
        st'.storage = some (adel store sid)) ∧
      (e.discarded = false →
        ∃ sid ser, serializeE e = .ok ser ∧
          (st'.getEnt entId).map SyncEntry.storage_id = some (some sid) ∧
          st'.storage = some (aset store sid ser) ∧
          aget (aset store sid ser) sid = some ser ∧
          (e.storage_id = some sid ∨ (e.storage_id = none ∧ sid = st.nextSid))) := by
  obtain ⟨ot, hot2⟩ := Option.isSome_iff_exists.mp hot
  obtain ⟨D, hser⟩ : ∃ D, serializeE e = .ok D :=
    ⟨{ side0 := side_state_to_dict e.state0
       side1 := side_state_to_dict e.state1
       otype := ot
       temp_file := e.temp_file
       discarded := e.discarded }, by simp [serializeE, hot2]⟩
  cases hsid : e.storage_id with
  | some sid =>
    cases hdisc : e.discarded with
    | true =>
      refine ⟨({ st with storage := some (adel store sid) }).setEnt entId
                { e with dirty := false },
              ?_, ⟨{ e with dirty := false }, getEnt_setEnt_self _ _ _, rfl⟩, ?_, ?_⟩
      · unfold storage_update
        simp [hstore, hent, hsid, hdisc]
      · intro sid2 hs2 _
        cases hs2
        rfl
      · intro hc
        simp at hc
    | false =>
      refine ⟨({ st with storage := some (aset store sid D) }).setEnt entId
                { e with dirty := false },
              ?_, ⟨{ e with dirty := false }, getEnt_setEnt_self _ _ _, rfl⟩, ?_, ?_⟩
      · unfold storage_update
        simp [hstore, hent, hsid, hdisc, hser]
      · intro sid2 hs2 hd2
        simp at hd2
      · intro _
        refine ⟨sid, D, hser, ?_, rfl, aget_aset_self _ _ _, .inl rfl⟩
        rw [getEnt_setEnt_self]
        simp [hsid]
  | none =>
    cases hdisc : e.discarded with
    | true => exact absurd ⟨hdisc, hsid⟩ hnd
    | false =>
      refine ⟨({ st with
                  storage := some (aset store st.nextSid D)
                  nextSid := st.nextSid + 1 }).setEnt entId
                { e with storage_id := some st.nextSid, dirty := false },
              ?_, ⟨_, getEnt_setEnt_self _ _ _, rfl⟩, ?_, ?_⟩
      · unfold storage_update
        simp [hstore, hent, hsid, hdisc, hser]
      · intro sid2 hs2 _
        cases hs2
      · intro _
        refine ⟨st.nextSid, D, hser, ?_, rfl, aget_aset_self _ _ _, .inr ⟨rfl, rfl⟩⟩
        rw [getEnt_setEnt_self]
        rfl

/-- Witness for the amended C4 at the concrete clean entry and storage. -/
theorem c4_storage_update_amended_witness :
    ∃ st', storage_update c4state 0 = .ok st' ∧
      (∃ e', st'.getEnt 0 = some e' ∧ e'.dirty = false) ∧
      (∀ sid, c4entry.storage_id = some sid → c4entry.discarded = true →
        st'.storage = some (adel [(5, c4dictOld)] sid)) ∧
      (c4entry.discarded = false →
        ∃ sid ser, serializeE c4entry = .ok ser ∧
          (st'.getEnt 0).map SyncEntry.storage_id = some (some sid) ∧
          st'.storage = some (aset [(5, c4dictOld)] sid ser) ∧
          aget (aset [(5, c4dictOld)] sid ser) sid = some ser ∧
          (c4entry.storage_id = some sid ∨
            (c4entry.storage_id = none ∧ sid = c4state.nextSid))) :=
  c4_storage_update_amended c4state 0 c4entry [(5, c4dictOld)] rfl rfl
    (by decide) (by decide)

/-- C5: boolean coercion of any `Exists` value raises, and the
`SideState.exists` setter maps `True` to EXISTS, `False` to TRASHED, `None`
to UNKNOWN, accepts an `Exists` value unchanged, and raises `ValueError`
for every other input value. -/
theorem c5_exists_tristate :
    (∀ e : Exists, Exists.pybool e = .error .valueError) ∧
    exists_setter (.pybool true) = .ok .EXISTS ∧
    exists_setter (.pybool false) = .ok .TRASHED ∧
    exists_setter .pynone = .ok .UNKNOWN ∧
    (∀ e : Exists, exists_setter (.pyexists e) = .ok e) ∧
    (∀ s : String, exists_setter (.pyother s) = .error .valueError) :=
  ⟨fun _ => rfl, rfl, rfl, rfl, fun e => by cases e <;> rfl, fun _ => rfl⟩

/-- C8: at path `/a/b`, `from_dir = /a`, `to_dir = /c`, the code returns the
bare remainder `/b` while its own contract (the dropped `retval`
expression, which the spec declares authoritative) returns `/c/b`: the
claimed contract does not hold of the code as written. -/
theorem c8_replace_path_code_bug :
    replace_path ['/', 'a', '/', 'b'] ['/', 'a'] ['/', 'c'] = .ok ['/', 'b'] ∧
    replace_path_contract ['/', 'a', '/', 'b'] ['/', 'a'] ['/', 'c'] =
      .ok ['/', 'c', '/', 'b'] ∧
    (['/', 'b'] : PyStr) ≠ ['/', 'c', '/', 'b'] := by
  decide

/-- C2 counterexample: the entry with `hash = b""` does not round-trip --
`serialize` stores the empty hex string, and the deserializer's
`bytes.fromhex(x) if x else None` turns it into `None`. -/
theorem c2_roundtrip_counterexample : ¬ roundTrips c2entry := by
  rintro ⟨d, E2, h1, h2, h3, -⟩
  have hcomp : (serializeE c2entry).bind (deserializeEntry 1) = .ok E2 := by
    rw [h1]
    exact h2
  have hfin : ((serializeE c2entry).bind (deserializeEntry 1)).map entryCore =
      .ok (entryCore c2entry) := by
    rw [hcomp]
    simp [Except.map]
    exact h3
  exact absurd hfin (by decide)

theorem decodeHash_map_hex (h : Option Bytes) (hh : hashOk h) :
    decodeHash (h.map bytesHex) = .ok h := by
  cases h with
  | none => rfl
  | some b =>
    have hb : b ≠ [] := by
      intro hb
      exact hh (by rw [hb])
    have hhex : ¬ (bytesHex b = []) := by
      cases b with
      | nil => exact absurd rfl hb
      | cons x t => simp [bytesHex, byteHex]
    simp [decodeHash, hhex, bytesFromHex_bytesHex]

theorem exists_setter_value (e : Exists) :
    exists_setter (exValOfStored e.value) = .ok e := by
  cases e <;> rfl

theorem dict_to_side_state_roundtrip (side : Nat) (s : SideState)
    (hh : hashOk s.hash) (hsh : hashOk s.sync_hash) :
    dict_to_side_state side (side_state_to_dict s) = .ok s := by
  obtain ⟨sd, h, ch, sh, sp, pa, oi, ex⟩ := s
  simp only [side_state_to_dict] at *
  simp [dict_to_side_state, decodeHash_map_hex _ hh, decodeHash_map_hex _ hsh,
        exists_setter_value, SideState.new]

/-- C2 amended: for every entry with `otype` set whose `hash`/`sync_hash`
slots are absent or non-empty byte strings (the counterexample forces the
non-emptiness condition), construction from `(id, serialize E)` yields an
entry equal to E on both side states, `otype`, `temp_file` and `discarded`,
with `storage_id` set to the id and `dirty` cleared, and re-serializing is
byte-equal (equal `SerDict`). -/
theorem c2_roundtrip_amended (E : SyncEntry) (eid : Nat)
    (hot : E.otype.isSome)
    (ha : hashOk E.state0.hash) (hb : hashOk E.state0.sync_hash)
    (hc : hashOk E.state1.hash) (hd : hashOk E.state1.sync_hash) :
    ∃ d E2, serializeE E = .ok d ∧ deserializeEntry eid d = .ok E2 ∧
      entryCore E2 = entryCore E ∧ serializeE E2 = .ok d ∧
      E2.storage_id = some eid ∧ E2.dirty = false := by
  obtain ⟨ot, hot⟩ := Option.isSome_iff_exists.mp hot
  refine ⟨{ side0 := side_state_to_dict E.state0
            side1 := side_state_to_dict E.state1
            otype := ot
            temp_file := E.temp_file
            discarded := E.discarded },
          { state0 := E.state0
            state1 := E.state1
            otype := some ot
            temp_file := E.temp_file
            discarded := E.discarded
            storage_id := some eid
            dirty := false }, ?_, ?_, ?_, ?_, rfl, rfl⟩
  · simp [serializeE, hot]
  · simp [deserializeEntry, dict_to_side_state_roundtrip 0 E.state0 ha hb,
          dict_to_side_state_roundtrip 1 E.state1 hc hd]
  · simp [entryCore, hot]
  · simp [serializeE]

/-- C1: after a create event, a successful sync to the remote side and a
local rename event -- all routed through the index-maintaining operations --
the rename branch of `handle_path_change_or_creation` writes the remote
`path` field directly, so the entry's remote path is `/r/b` while
`lookup_path` at `/r/b` is empty (the entry is still indexed at `/r/a`):
the bi-index invariant the claim (and spec §3 invariant 2, §8 property 1)
states is violated by this branch. -/
theorem c1_rename_branch_breaks_path_index :
    c1Pipeline.map (fun st =>
      ((st.getEnt 0).map (fun e => (e.get 1).path),
       lookup_path st 1 (some "/r/b"),
       lookup_path st 1 (some "/r/a"))) =
    .ok (some (some "/r/b"), [], [0]) := by
  decide

/-- C3 counterexample: rehydrating a storage with one row whose side-0
`changed` is set produces a state whose entry has a truthy `changed`, is
not discarded, and yet the changeset is empty -- `__init__` never
re-enqueues persisted changed rows. -/
theorem c3_rehydrate_counterexample :
    ∃ st, rehydrateInit [(1, c3row)] = .ok st ∧ ¬ ChangesetInv st := by
  cases hres : rehydrateInit [(1, c3row)] with
  | error err =>
    have hT : isOkE (rehydrateInit [(1, c3row)]) = true := by decide
    rw [hres] at hT
    exact absurd hT (by simp [isOkE])
  | ok st =>
    refine ⟨st, rfl, ?_⟩
    rintro ⟨hfwd, -, -⟩
    have hproj := congrArg (fun x : Except PyErr SyncState =>
      match x with
      | .ok s => ((s.getEnt 0).map entHasChanged, (s.getEnt 0).map SyncEntry.discarded,
                  decide (0 ∈ s.changeset))
      | .error _ => (none, none, true)) hres
    have hval : ((st.getEnt 0).map entHasChanged, (st.getEnt 0).map SyncEntry.discarded,
        decide (0 ∈ st.changeset)) = (some true, some false, false) :=
      hproj.symm.trans (by decide)
    have h1 : (st.getEnt 0).map entHasChanged = some true := congrArg Prod.fst hval
    have h23 := congrArg Prod.snd hval
    have h2 : (st.getEnt 0).map SyncEntry.discarded = some false := congrArg Prod.fst h23
    have h3 : decide (0 ∈ st.changeset) = false := congrArg Prod.snd h23
    obtain ⟨e, he, hch⟩ := Option.map_eq_some'.mp h1
    rw [he] at h2
    simp at h2
    exact absurd (hfwd 0 e he h2 hch) (of_decide_eq_false h3)

theorem pyLtL_total (a b : List Char) (h : a ≠ b) :
    pyLtL a b = true ∨ pyLtL b a = true := by
  induction a generalizing b with
  | nil =>
    cases b with
    | nil => exact absurd rfl h
    | cons y ys => exact .inl rfl
  | cons x xs ih =>
    cases b with
    | nil => exact .inr rfl
    | cons y ys =>
      by_cases hxy : x.toNat < y.toNat
      · exact .inl (by simp [pyLtL, hxy])
      · by_cases hyx : y.toNat < x.toNat
        · exact .inr (by simp [pyLtL, hyx])
        · have hx : x = y := Char.ext (UInt32.ext (by simp [Char.toNat] at hxy hyx ⊢; omega))
          subst hx
          have hxs : xs ≠ ys := by
            intro he
            exact h (by rw [he])
          rcases ih ys hxs with h2 | h2
          · exact .inl (by simp [pyLtL, hxy, hyx, h2])
          · exact .inr (by simp [pyLtL, hxy, hyx, h2])

theorem get_set_exists (e : SyncEntry) (i j : Nat) (s : SideState)
    (hs : s.exists_ = (e.get i).exists_) :
    ((e.set i s).get j).exists_ = (e.get j).exists_ := by
  unfold SyncEntry.get SyncEntry.set at *
  by_cases hi : i = 0 <;> by_cases hj : j = 0 <;> simp [hi, hj] at hs ⊢ <;> simp [hs]

/-- C10: `update_entry` with the `exists` argument omitted (its Python
default is `True`, not "leave unchanged") overwrites the targeted side's
exists field to EXISTS; in particular the conflict-rename updates of
`handle_split_conflict` and of `handle_path_conflict`, which logically
change only the path, also mark the renamed side as existing. -/
theorem c10_update_entry_exists_default :
    (∀ st entId side oid path st' e, SyncState.getEnt st entId = some e →
       update_entry_defaults st entId side oid path = .ok st' →
       ∃ e', st'.getEnt entId = some e' ∧ (e'.get side).exists_ = .EXISTS) ∧
    (∀ st dId dSide rId rSide ren now st' cmds re, SyncState.getEnt st rId = some re →
       handle_split_conflict st dId dSide rId rSide ren now = .ok (st', cmds) →
       ∃ e', st'.getEnt rId = some e' ∧ (e'.get rSide).exists_ = .EXISTS) ∧
    (∀ st entId translate ren st' c e, SyncState.getEnt st entId = some e →
       handle_path_conflict st entId translate ren = .ok (st', [c]) →
       ∃ e', st'.getEnt entId = some e' ∧ (e'.get c.side).exists_ = .EXISTS) := by
  refine ⟨?_, ?_, ?_⟩
  · intro st entId side oid path st' e hent h
    exact update_entry_true_exists st entId side oid path none st' e hent h
  · intro st dId dSide rId rSide ren now st' cmds re hent h
    unfold handle_split_conflict at h
    simp only [hent] at h
    cases hrp : (re.get rSide).path with
    | none =>
      simp only [hrp] at h
      simp at h
    | some rpath =>
      simp only [hrp] at h
      cases hren : ren (re.get rSide).side (re.get rSide).oid (rpath ++ ".conflicted") with
      | error err =>
        rw [hren] at h
        simp at h
      | ok u =>
        rw [hren] at h
        simp only [exbind_ok] at h
        cases hud : update_entry_defaults st rId rSide (re.get rSide).oid
            (some (rpath ++ ".conflicted")) with
        | error err =>
          rw [hud] at h
          simp at h
        | ok stU =>
          rw [hud] at h
          simp only [exbind_ok] at h
          obtain ⟨e', he', hex⟩ := update_entry_true_exists st rId rSide (re.get rSide).oid
            (some (rpath ++ ".conflicted")) none stU re hent hud
          cases hdef : stU.getEnt dId with
          | none =>
            simp only [hdef] at h
            injection h with hpair
            injection hpair with hst hcmds
            rw [← hst]
            exact ⟨e', he', hex⟩
          | some de =>
            simp only [hdef] at h
            injection h with hpair
            injection hpair with hst hcmds
            rw [← hst]
            by_cases hid : rId = dId
            · subst hid
              rw [hdef] at he'
              cases he'
              refine ⟨_, getEnt_setEnt_self _ _ _, ?_⟩
              have hs : ({ e'.get dSide with changed := some now }).exists_ =
                  (e'.get dSide).exists_ := rfl
              rw [get_set_exists e' dSide rSide _ hs]
              exact hex
            · rw [getEnt_setEnt_ne _ _ _ _ hid]
              exact ⟨e', he', hex⟩
  · intro st entId translate ren st' c e hent h
    unfold handle_path_conflict at h
    simp only [hent] at h
    cases hpA : e.state0.path with
    | none => simp only [hpA] at h; simp at h
    | some p0 =>
      cases hpB : e.state1.path with
      | none => simp only [hpA, hpB] at h; simp at h
      | some p1 =>
        simp only [hpA, hpB] at h
        cases hgt : pyStrGt p0 p1 with
        | true =>
          simp [hgt, SyncEntry.get, hpA, hpB] at h
          cases hq : translate e.state1.side p0 with
          | none =>
            rw [hq] at h
            simp at h
          | some q =>
            rw [hq] at h
            simp only [] at h
            cases hren : ren e.state1.side e.state1.oid q with
            | error err =>
              rw [hren] at h
              simp at h
            | ok u =>
              rw [hren] at h
              simp only [exbind_ok] at h
              cases hud : update_entry_defaults st entId e.state1.side e.state1.oid
                  (some q) with
              | error err =>
                rw [hud] at h
                simp at h
              | ok stU =>
                rw [hud] at h
                simp only [exbind_ok] at h
                injection h with hpair
                injection hpair with hst hcmds
                injection hcmds with hc hnil
                rw [← hst, ← hc]
                exact update_entry_true_exists st entId e.state1.side e.state1.oid
                  (some q) none stU e hent hud
        | false =>
          simp [hgt, SyncEntry.get, hpA, hpB] at h
          cases hq : translate e.state0.side p1 with
          | none =>
            rw [hq] at h
            simp at h
          | some q =>
            rw [hq] at h
            simp only [] at h
            cases hren : ren e.state0.side e.state0.oid q with
            | error err =>
              rw [hren] at h
              simp at h
            | ok u =>
              rw [hren] at h
              simp only [exbind_ok] at h
              cases hud : update_entry_defaults st entId e.state0.side e.state0.oid
                  (some q) with
              | error err =>
                rw [hud] at h
                simp at h
              | ok stU =>
                rw [hud] at h
                simp only [exbind_ok] at h
                injection h with hpair
                injection hpair with hst hcmds
                injection hcmds with hc hnil
                rw [← hst, ← hc]
                exact update_entry_true_exists st entId e.state0.side e.state0.oid
                  (some q) none stU e hent hud

/-- Witness for C10 at a concrete state: a conflict-style `update_entry`
call that only passes an oid leaves the side marked EXISTS. -/
theorem c10_update_entry_exists_default_witness :
    ∃ st' e', update_entry_defaults c7state 0 1 (some "ro2") none = .ok st' ∧
      st'.getEnt 0 = some e' ∧ (e'.get 1).exists_ = .EXISTS := by
  cases hres : update_entry_defaults c7state 0 1 (some "ro2") none with
  | error err =>
    have hT : isOkE (update_entry_defaults c7state 0 1 (some "ro2") none) = true := by decide
    rw [hres] at hT
    exact absurd hT (by simp [isOkE])
  | ok st' =>
    obtain ⟨e', h1, h2⟩ := c10_update_entry_exists_default.1 c7state 0 1 (some "ro2") none
      st' c7entry rfl hres
    exact ⟨st', e', rfl, h1, h2⟩

/-- C6: when the manager handles a path conflict (both paths set, each away
from its sync path, the two paths distinct, and the translator yielding a
path for the losing side), it picks the side holding the lexicographically
greater path, issues a rename of the losing side's object to the translated
picked path, and routes the losing side's new path through the state. -/
theorem c6_path_conflict (st : SyncState) (entId : EntId) (e : SyncEntry)
    (translate : Nat → String → Option String)
    (ren : Nat → Option String → String → Except PyErr Unit)
    (p0 p1 q : String) (res : SyncState × List RenameCmd)
    (hent : st.getEnt entId = some e)
    (hw0 : e.state0.side = 0) (hw1 : e.state1.side = 1)
    (hp0 : e.state0.path = some p0) (hp1 : e.state1.path = some p1)
    (hne : p0 ≠ p1)
    (hc0 : e.state0.path ≠ e.state0.sync_path)
    (hc1 : e.state1.path ≠ e.state1.sync_path)
    (hq : translate (if pyStrGt p0 p1 then 1 else 0) (if pyStrGt p0 p1 then p0 else p1)
      = some q)
    (hqne : q ≠ "")
    (hres : handle_path_conflict st entId translate ren = .ok res) :
    ∃ l : Nat, ((pyStrGt p0 p1 = true ∧ l = 1) ∨ (pyStrGt p0 p1 = false ∧ l = 0)) ∧
      pyLtL (if pyStrGt p0 p1 then p1 else p0).data
        (if pyStrGt p0 p1 then p0 else p1).data = true ∧
      res.2 = [⟨l, (e.get l).oid, q⟩] ∧
      ∃ e', res.1.getEnt entId = some e' ∧ (e'.get l).path = some q ∧
        entId ∈ lookup_path res.1 l (some q) := by
  have hdata : p0.data ≠ p1.data := by
    intro hd
    apply hne
    cases p0
    cases p1
    cases hd
    rfl
  unfold handle_path_conflict at hres
  simp only [hent, hp0, hp1] at hres
  cases hgt : pyStrGt p0 p1 with
  | true =>
    simp [hgt, SyncEntry.get, hp0, hp1] at hres
    rw [hw1] at hres
    rw [show translate 1 p0 = some q from by simpa [hgt] using hq] at hres
    simp only [] at hres
    cases hren : ren e.state1.side e.state1.oid q with
    | error err =>
      rw [hw1] at hren
      rw [hren] at hres
      simp at hres
    | ok u =>
      rw [hw1] at hren
      rw [hren] at hres
      simp only [exbind_ok] at hres
      cases hud : update_entry_defaults st entId 1 e.state1.oid (some q) with
      | error err =>
        rw [hud] at hres
        simp at hres
      | ok stU =>
        rw [hud] at hres
        simp only [exbind_ok] at hres
        injection hres with hpair
        refine ⟨1, .inl ⟨rfl, rfl⟩, ?_, ?_, ?_⟩
        · simp only [if_true]
          exact hgt
        · rw [← hpair]
          simp [SyncEntry.get, hw1]
        · rw [← hpair]
          obtain ⟨e', ha, hb, -, hd⟩ :=
            update_entry_defaults_path st entId 1 e.state1.oid q stU e hent hqne hud
          exact ⟨e', ha, hb, hd⟩
  | false =>
    simp [hgt, SyncEntry.get, hp0, hp1] at hres
    rw [hw0] at hres
    rw [show translate 0 p1 = some q from by simpa [hgt] using hq] at hres
    simp only [] at hres
    cases hren : ren e.state0.side e.state0.oid q with
    | error err =>
      rw [hw0] at hren
      rw [hren] at hres
      simp at hres
    | ok u =>
      rw [hw0] at hren
      rw [hren] at hres
      simp only [exbind_ok] at hres
      cases hud : update_entry_defaults st entId 0 e.state0.oid (some q) with
      | error err =>
        rw [hud] at hres
        simp at hres
      | ok stU =>
        rw [hud] at hres
        simp only [exbind_ok] at hres
        injection hres with hpair
        refine ⟨0, .inr ⟨rfl, rfl⟩, ?_, ?_, ?_⟩
        · simp only [Bool.false_eq_true, if_false]
          rcases pyLtL_total p0.data p1.data hdata with h2 | h2
          · exact h2
          · exact absurd h2 (by rw [show pyLtL p1.data p0.data = pyStrGt p0 p1 from rfl, hgt]; simp)
        · rw [← hpair]
          simp [SyncEntry.get, hw0]
        · rw [← hpair]
          obtain ⟨e', ha, hb, -, hd⟩ :=
            update_entry_defaults_path st entId 0 e.state0.oid q stU e hent hqne hud
          exact ⟨e', ha, hb, hd⟩

/-- Witness for C6 at a concrete conflicted state. -/
theorem c6_path_conflict_witness :
    ∃ res l, handle_path_conflict c6state 0 c6translate c6ren = .ok res ∧
      ((pyStrGt "/p-l" "/p-r" = true ∧ l = 1) ∨ (pyStrGt "/p-l" "/p-r" = false ∧ l = 0)) ∧
      res.2 = [⟨l, (c6entry.get l).oid, "/t/p-r"⟩] ∧
      ∃ e', res.1.getEnt 0 = some e' ∧ (e'.get l).path = some "/t/p-r" ∧
        0 ∈ lookup_path res.1 l (some "/t/p-r") := by
  cases hres : handle_path_conflict c6state 0 c6translate c6ren with
  | error err =>
    have hT : isOkE (handle_path_conflict c6state 0 c6translate c6ren) = true := by decide
    rw [hres] at hT
    exact absurd hT (by simp [isOkE])
  | ok res =>
    obtain ⟨l, hl, hwin, hcmds, he⟩ := c6_path_conflict c6state 0 c6entry c6translate c6ren
      "/p-l" "/p-r" "/t/p-r" res rfl rfl rfl rfl rfl (by decide) (by decide) (by decide)
      (by decide) (by decide) hres
    exact ⟨res, l, rfl, hl, hcmds, he⟩

/-- C7: when `embrace_change` runs for a changed side whose state is
TRASHED: with no other entry sharing the changed side's path and a truthy
synced oid, a delete is attempted on the other side (with `ok` and
`CloudFileNotFoundError` outcomes treated identically, i.e. NotFound is
swallowed), the synced side is marked TRASHED and the call returns
FINISHED; with other entries sharing the path, the entry is discarded and
no delete is issued. -/
theorem c7_deletion (st : SyncState) (entId : EntId) (e : SyncEntry) (changed synced : Nat)
    (del : Option String → DelRes)
    (hent : st.getEnt entId = some e)
    (htr : (e.get changed).exists_ = .TRASHED) :
    (((lookup_path st changed (e.get changed).path).filter (· ≠ entId)) = [] →
     truthyS (e.get synced).oid = true →
     del (e.get synced).oid ≠ .err →
     embrace_change_del st entId changed synced del =
       .ok (.res (st.setEnt entId (e.set synced { e.get synced with exists_ := .TRASHED }))
            [(e.get synced).oid] .FINISHED)) ∧
    (((lookup_path st changed (e.get changed).path).filter (· ≠ entId)) ≠ [] →
     embrace_change_del st entId changed synced del =
       .ok (.res (discardOp st entId) [] .FINISHED)) := by
  constructor
  · intro hfil hoid hdel
    have hfil2 : ∀ a ∈ lookup_path st changed (e.get changed).path, a = entId := by
      intro a ha
      by_contra hne2
      have hmem : a ∈ (lookup_path st changed (e.get changed).path).filter (· ≠ entId) := by
        simp [List.mem_filter, ha, hne2]
      rw [hfil] at hmem
      simp at hmem
    unfold embrace_change_del delete_synced
    simp only [hent]
    simp [htr, hfil2, hoid]
    cases hd : del (e.get synced).oid with
    | err => exact absurd hd hdel
    | ok =>
      rw [if_pos hfil2]
      rfl
    | notFound =>
      rw [if_pos hfil2]
      rfl
  · intro hfil
    have hfil2 : ¬ (∀ a ∈ lookup_path st changed (e.get changed).path, a = entId) := by
      intro hall
      apply hfil
      rw [List.filter_eq_nil_iff]
      intro a ha
      simp [hall a ha]
    unfold embrace_change_del delete_synced
    simp only [hent]
    simp [htr, hfil2]

/-- Witness for C7: a trashed changed side with a synced oid, the provider
delete reporting NotFound, which is swallowed. -/
theorem c7_deletion_witness :
    embrace_change_del c7state 0 0 1 (fun _ => DelRes.notFound) =
      .ok (.res (c7state.setEnt 0 (c7entry.set 1 { c7entry.get 1 with exists_ := .TRASHED }))
           [(c7entry.get 1).oid] .FINISHED) :=
  (c7_deletion c7state 0 c7entry 0 1 (fun _ => DelRes.notFound) rfl rfl).1
    (by decide) (by decide) (by decide)

/-- Witness for the amended C2 at a concrete entry. -/
theorem c2_roundtrip_amended_witness :
    ∃ d E2, serializeE c2wEntry = .ok d ∧ deserializeEntry 3 d = .ok E2 ∧
      entryCore E2 = entryCore c2wEntry ∧ serializeE E2 = .ok d ∧
      E2.storage_id = some 3 ∧ E2.dirty = false :=
  c2_roundtrip_amended c2wEntry 3 (by decide) (by decide) (by decide)
    (by decide) (by decide)

/-- Counterexample for C9 as stated: the parent recursion does not always
strictly shorten the path.  `split` on the bare alternate separator
(Python `"\\"`) returns the primary separator `"/"` and `""`: a parent of
the same length as, and different from, the argument. -/
theorem c9_split_counterexample :
    (psplit [altSepC]).1 = [sepC] ∧ (psplit [altSepC]).1 ≠ [altSepC] ∧
      ¬ ((psplit [altSepC]).1).length < ([altSepC] : PyStr).length := by
  decide

/-- C9 amended: `mkdirs` terminates because the `split`-parent either equals
the path (the raising stop case) or strictly decreases the measure
`pmeasure` (shorter, or the bare separator, which is terminal); and on the
conforming directory provider a successful call returns an oid recorded for
the requested path, while a path whose directory already exists returns the
existing oid with the provider state unchanged. -/
theorem c9_mkdirs_amended :
    (∀ p : PyStr, (psplit p).1 = p ∨ pmeasure (psplit p).1 < pmeasure p) ∧
    (∀ (fs : FS) (p : PyStr) (oid : Nat) (fs' : FS),
      mkdirs fsOps fs p = .ok (oid, fs') → aget fs'.dirs p = some oid) ∧
    (∀ (fs : FS) (p : PyStr) (oid : Nat),
      aget fs.dirs p = some oid → mkdirs fsOps fs p = .ok (oid, fs)) := by
  refine ⟨?_, ?_, ?_⟩
  · intro p
    by_cases hpp : (psplit p).1 = p
    · exact Or.inl hpp
    · exact Or.inr (psplit_measure_lt p hpp)
  · intro fs p oid fs' h
    rw [mkdirs] at h
    simp only [fsOps] at h
    cases hmk : fsMkdir fs p with
    | mk r fs1 =>
      rw [hmk] at h
      cases r with
      | ok o =>
        simp at h
        obtain ⟨ho, hfs⟩ := h
        unfold fsMkdir at hmk
        by_cases hex : (aget fs.dirs p).isSome
        · simp [hex] at hmk
        · by_cases hpar : (psplit p).1 = p ∨ (aget fs.dirs (psplit p).1).isSome
          · simp [hex, hpar] at hmk
            obtain ⟨ho1, hfs1⟩ := hmk
            rw [← hfs, ← hfs1, ← ho, ← ho1]
            exact aget_aset_self fs.dirs p fs.nextOid
          · simp [hex, hpar] at hmk
      | errOther => simp at h
      | errExists =>
        simp only [fsOps, fsInfoPath] at h
        cases hg : aget fs1.dirs p with
        | none =>
          rw [hg] at h
          simp at h
        | some o =>
          rw [hg] at h
          simp at h
          obtain ⟨ho, hfs⟩ := h
          rw [← hfs, hg, ho]
      | errNotFound =>
        by_cases hpp : (psplit p).1 = p
        · simp [hpp] at h
        · simp only [hpp, dite_false] at h
          have hlit : ({ mkdir := fsMkdir, info_path := fsInfoPath } : ProvOps FS) = fsOps :=
            rfl
          rw [hlit] at h
          cases hrec : mkdirs fsOps fs1 (psplit p).1 with
          | error e =>
            rw [hrec] at h
            simp at h
          | ok v =>
            rw [hrec] at h
            cases v with
            | mk o2 st2 =>
              cases hmk2 : fsMkdir st2 p with
              | mk r2 fs3 =>
                simp only [fsOps] at h
                rw [hmk2] at h
                cases r2 with
                | ok o3 =>
                  simp at h
                  obtain ⟨ho, hfs⟩ := h
                  unfold fsMkdir at hmk2
                  by_cases hex : (aget st2.dirs p).isSome
                  · simp [hex] at hmk2
                  · by_cases hpar : (psplit p).1 = p ∨ (aget st2.dirs (psplit p).1).isSome
                    · simp [hex, hpar] at hmk2
                      obtain ⟨ho1, hfs1⟩ := hmk2
                      rw [← hfs, ← hfs1, ← ho, ← ho1]
                      exact aget_aset_self st2.dirs p st2.nextOid
                    · simp [hex, hpar] at hmk2
                | errExists => simp at h
                | errNotFound => simp at h
                | errOther => simp at h
  · intro fs p oid h
    rw [mkdirs]
    simp only [fsOps]
    have hmk : fsMkdir fs p = (.errExists, fs) := by
      unfold fsMkdir
      simp [h]
    rw [hmk]
    simp only [fsInfoPath]
    rw [h]

/-- Witness for the amended C9: a directory already present is returned
with its stored oid and an unchanged provider state. -/
theorem c9_mkdirs_amended_witness :
    mkdirs fsOps { dirs := [([sepC, 'a'], 7)], nextOid := 1 } [sepC, 'a'] =
      .ok (7, { dirs := [([sepC, 'a'], 7)], nextOid := 1 }) :=
  c9_mkdirs_amended.2.2 { dirs := [([sepC, 'a'], 7)], nextOid := 1 } [sepC, 'a'] 7
    (by decide)

/-! ### Preservation of the changeset invariant (C3). -/

@[simp] theorem setEnt_nextEid (st : SyncState) (i : EntId) (e : SyncEntry) :
    (st.setEnt i e).nextEid = st.nextEid := rfl

@[simp] theorem setOidsIdx_nextEid (st : SyncState) (side : Nat) (m : OidsMap) :
    (st.setOidsIdx side m).nextEid = st.nextEid := by
  unfold SyncState.setOidsIdx
  split <;> rfl

@[simp] theorem setPathsIdx_nextEid (st : SyncState) (side : Nat) (m : PathsMap) :
    (st.setPathsIdx side m).nextEid = st.nextEid := by
  unfold SyncState.setPathsIdx
  split <;> rfl

theorem entMeta_fields {e e' : SyncEntry} (h : entMeta e = entMeta e') :
    e.state0.changed = e'.state0.changed ∧ e.state1.changed = e'.state1.changed ∧
      e.discarded = e'.discarded := by
  unfold entMeta at h
  refine ⟨congrArg (fun p => p.1) h, congrArg (fun p => p.2.1) h,
    congrArg (fun p => p.2.2) h⟩

theorem entHasChanged_meta {e e' : SyncEntry} (h : entMeta e = entMeta e') :
    entHasChanged e = entHasChanged e' := by
  obtain ⟨h0, h1, -⟩ := entMeta_fields h
  unfold entHasChanged
  rw [h0, h1]

theorem getEnt_none_of_metaEq {st st' : SyncState} (h : metaEq st st') {id : EntId}
    (hn : st.getEnt id = none) : st'.getEnt id = none := by
  have hmap := h.2 id
  rw [hn] at hmap
  exact Option.map_eq_none'.mp hmap

theorem changesetInv_metaEq {st st' : SyncState} (h : metaEq st st')
    (hc : ChangesetInv st) : ChangesetInv st' := by
  obtain ⟨h1, h2, h3⟩ := hc
  refine ⟨?_, ?_, h.1 ▸ h3⟩
  · intro id e' he' hdisc hch
    have hmap := h.2 id
    rw [he'] at hmap
    cases hx : st.getEnt id with
    | none =>
      rw [hx] at hmap
      simp at hmap
    | some e =>
      rw [hx] at hmap
      simp at hmap
      obtain ⟨-, -, hd⟩ := entMeta_fields hmap
      rw [h.1]
      refine h1 id e hx ?_ ?_
      · rw [← hd, hdisc]
      · rw [← entHasChanged_meta hmap, hch]
  · intro id hid
    rw [h.1] at hid
    obtain ⟨e, he, hor⟩ := h2 id hid
    obtain ⟨e', he', hm⟩ := metaEq_getEnt_some h he
    obtain ⟨-, -, hd⟩ := entMeta_fields hm
    refine ⟨e', he', ?_⟩
    rcases hor with hch | hdisc
    · exact .inl ((entHasChanged_meta hm).trans hch)
    · exact .inr (hd.trans hdisc)

theorem oidsSound_stable {st st' : SyncState} (h : metaEq st st')
    (ho : ∀ q, st'.oids q = st.oids q) (hs : OidsSound st) : OidsSound st' := by
  intro q k id hmem
  rw [ho q] at hmem
  obtain ⟨e, he⟩ := hs q k id hmem
  obtain ⟨e', he', -⟩ := metaEq_getEnt_some h he
  exact ⟨e', he'⟩

theorem freshEid_stable {st st' : SyncState} (h : metaEq st st')
    (hn : st'.nextEid = st.nextEid) (hf : FreshEid st) : FreshEid st' := by
  intro id hid
  rw [hn] at hid
  exact getEnt_none_of_metaEq h (hf id hid)

theorem good_of_metaEq_stable {st st' : SyncState} (h : metaEq st st')
    (ho : ∀ q, st'.oids q = st.oids q) (hn : st'.nextEid = st.nextEid)
    (hg : GoodState st) : GoodState st' :=
  ⟨changesetInv_metaEq h hg.1, oidsSound_stable h ho hg.2.1,
   freshEid_stable h hn hg.2.2⟩

theorem mem_csAdd_self (l : List EntId) (i : EntId) : i ∈ csAdd l i := by
  unfold csAdd
  by_cases h : i ∈ l <;> simp [h]

theorem mem_csAdd_of_mem {l : List EntId} {j : EntId} (i : EntId) (h : j ∈ l) :
    j ∈ csAdd l i := by
  unfold csAdd
  by_cases hi : i ∈ l <;> simp [h, hi]

theorem mem_csAdd_elim {l : List EntId} {i j : EntId} (h : j ∈ csAdd l i) :
    j ∈ l ∨ j = i := by
  unfold csAdd at h
  by_cases hi : i ∈ l
  · rw [if_pos hi] at h
    exact .inl h
  · rw [if_neg hi] at h
    simpa using h

theorem csAdd_nodup {l : List EntId} (i : EntId) (h : l.Nodup) : (csAdd l i).Nodup := by
  unfold csAdd
  by_cases hi : i ∈ l
  · simpa [hi]
  · simp [hi, List.nodup_append, h]

theorem oidsSound_setEnt_of_some (st : SyncState) (i : EntId) (e0 e' : SyncEntry)
    (hent : st.getEnt i = some e0) (hs : OidsSound st) : OidsSound (st.setEnt i e') := by
  intro q k id hmem
  rw [setEnt_oids] at hmem
  obtain ⟨e, he⟩ := hs q k id hmem
  by_cases hid : id = i
  · subst hid
    exact ⟨e', getEnt_setEnt_self st id e'⟩
  · exact ⟨e, (getEnt_setEnt_ne st i id e' hid).trans he⟩

theorem oidsSound_adel (st : SyncState) (side : Nat) (k0 : Option String)
    (hs : OidsSound st) : OidsSound (st.setOidsIdx side (adel (st.oids side) k0)) := by
  intro q k id hmem
  rw [oids_setOidsIdx] at hmem
  by_cases hq : (q = 0) = (side = 0)
  · rw [if_pos hq] at hmem
    obtain ⟨e2, he2⟩ := hs side k id (mem_adel_elim hmem)
    exact ⟨e2, by simpa using he2⟩
  · rw [if_neg hq] at hmem
    obtain ⟨e2, he2⟩ := hs q k id hmem
    exact ⟨e2, by simpa using he2⟩

theorem oidsSound_aset_ent (st : SyncState) (side : Nat) (entId : EntId) (o : String)
    (e' : SyncEntry) (he : ∃ e0, st.getEnt entId = some e0) (hs : OidsSound st) :
    OidsSound ((st.setOidsIdx side (aset (st.oids side) (some o) entId)).setEnt entId e') := by
  intro q k id hmem
  simp only [setEnt_oids] at hmem
  rw [oids_setOidsIdx] at hmem
  by_cases hid : id = entId
  · subst hid
    exact ⟨e', getEnt_setEnt_self _ _ _⟩
  · have hsome : ∃ e2, st.getEnt id = some e2 := by
      by_cases hq : (q = 0) = (side = 0)
      · rw [if_pos hq] at hmem
        rcases mem_aset_elim hmem with hold | hnew
        · exact hs side k id hold
        · exact absurd (congrArg Prod.snd hnew) (by simpa using hid)
      · rw [if_neg hq] at hmem
        exact hs q k id hmem
    obtain ⟨e2, he2⟩ := hsome
    refine ⟨e2, ?_⟩
    rw [getEnt_setEnt_ne _ _ _ _ hid]
    simpa using he2

theorem change_oid_oidsSound (st : SyncState) (side : Nat) (entId : EntId) (o : String)
    (hs : OidsSound st) : OidsSound (change_oid st side entId o) := by
  unfold change_oid
  cases hent : st.getEnt entId with
  | none => exact hs
  | some e =>
    by_cases ht : truthyS (e.get side).oid <;> by_cases ho : o = "" <;> simp [ht, ho]
    · exact oidsSound_adel st side _ hs
    · exact oidsSound_aset_ent _ side entId o _ ⟨e, by simpa using hent⟩
        (oidsSound_adel st side _ hs)
    · exact hs
    · exact oidsSound_aset_ent st side entId o _ ⟨e, hent⟩ hs

theorem change_oid_nextEid (st : SyncState) (side : Nat) (entId : EntId) (o : String) :
    (change_oid st side entId o).nextEid = st.nextEid := by
  unfold change_oid
  cases hent : st.getEnt entId with
  | none => rfl
  | some e =>
    by_cases ht : truthyS (e.get side).oid <;> by_cases ho : o = "" <;> simp [ht, ho]

theorem change_oid_good (st : SyncState) (side : Nat) (entId : EntId) (o : String)
    (hg : GoodState st) : GoodState (change_oid st side entId o) :=
  ⟨changesetInv_metaEq (change_oid_metaEq st side entId o) hg.1,
   change_oid_oidsSound st side entId o hg.2.1,
   freshEid_stable (change_oid_metaEq st side entId o)
     (change_oid_nextEid st side entId o) hg.2.2⟩

theorem change_path_stable (st : SyncState) (side : Nat) (entId : EntId) (p : String)
    (st' : SyncState) (h : change_path st side entId p = .ok st') :
    (∀ q, st'.oids q = st.oids q) ∧ st'.nextEid = st.nextEid := by
  unfold change_path at h
  cases hent : st.getEnt entId with
  | none =>
    simp only [hent] at h
    cases h
    exact ⟨fun q => rfl, rfl⟩
  | some e =>
    simp only [hent] at h
    by_cases ho : truthyS (e.get side).oid
    · simp only [ho, Bool.not_true, Bool.false_eq_true, if_false] at h
      cases hrm : remove_old_path st side (e.get side).path (e.get side).oid with
      | error err =>
        rw [hrm] at h
        simp at h
      | ok st1 =>
        rw [hrm] at h
        have h1 : (∀ q, st1.oids q = st.oids q) ∧ st1.nextEid = st.nextEid := by
          rcases remove_old_path_shape st side _ _ st1 hrm with h2 | ⟨pm, h2⟩ <;> rw [h2] <;>
            exact ⟨fun q => by simp, by simp⟩
        simp only [exbind_ok] at h
        by_cases hp : p = ""
        · simp [hp] at h
          rw [← h]
          exact h1
        · simp [hp] at h
          rw [← h]
          exact ⟨fun q => by simp [h1.1 q], by simp [h1.2]⟩
    · simp [ho] at h

theorem change_path_good (st : SyncState) (side : Nat) (entId : EntId) (p : String)
    (st' : SyncState) (h : change_path st side entId p = .ok st')
    (hg : GoodState st) : GoodState st' :=
  good_of_metaEq_stable (change_path_metaEq st side entId p st' h)
    (change_path_stable st side entId p st' h).1
    (change_path_stable st side entId p st' h).2 hg

theorem set_hash_field_stable (st : SyncState) (entId : EntId) (side : Nat) (hb : Bytes) :
    (∀ q, (set_hash_field st entId side hb).oids q = st.oids q) ∧
      (set_hash_field st entId side hb).nextEid = st.nextEid := by
  unfold set_hash_field
  cases hent : st.getEnt entId with
  | none => exact ⟨fun q => rfl, rfl⟩
  | some e => exact ⟨fun q => by simp, by simp⟩

theorem set_exists_field_stable (st : SyncState) (entId : EntId) (side : Nat) (v : Exists) :
    (∀ q, (set_exists_field st entId side v).oids q = st.oids q) ∧
      (set_exists_field st entId side v).nextEid = st.nextEid := by
  unfold set_exists_field
  cases hent : st.getEnt entId with
  | none => exact ⟨fun q => rfl, rfl⟩
  | some e => exact ⟨fun q => by simp, by simp⟩

theorem exists_step_good (stA : SyncState) (entId : EntId) (side : Nat)
    (ex : Option ExVal) (st' : SyncState)
    (h : (match ex with
          | some v => do
              let exv ← exists_setter v
              pure (set_exists_field stA entId side exv)
          | none => pure stA) = .ok st') (hg : GoodState stA) : GoodState st' := by
  cases ex with
  | none =>
    simp at h
    rw [← h]
    exact hg
  | some v =>
    cases hse : exists_setter v with
    | error err => simp [hse] at h
    | ok exv =>
      simp [hse] at h
      rw [← h]
      exact good_of_metaEq_stable (set_exists_field_metaEq stA entId side exv)
        (set_exists_field_stable stA entId side exv).1
        (set_exists_field_stable stA entId side exv).2 hg

theorem update_entry_cont_good (st1 : SyncState) (entId : EntId) (side : Nat)
    (hashArg : Option Bytes) (ex : Option ExVal) (st' : SyncState)
    (h : (match ex with
          | some v => do
              let exv ← exists_setter v
              pure (set_exists_field (match hashArg with
                                      | some hb => set_hash_field st1 entId side hb
                                      | none => st1) entId side exv)
          | none => pure (match hashArg with
                          | some hb => set_hash_field st1 entId side hb
                          | none => st1)) = .ok st') (hg : GoodState st1) :
    GoodState st' := by
  cases hashArg with
  | some hb =>
    refine exists_step_good (set_hash_field st1 entId side hb) entId side ex st' h ?_
    exact good_of_metaEq_stable (set_hash_field_metaEq st1 entId side hb)
      (set_hash_field_stable st1 entId side hb).1
      (set_hash_field_stable st1 entId side hb).2 hg
  | none =>
    exact exists_step_good st1 entId side ex st' h hg

theorem update_entry_good (st : SyncState) (entId : EntId) (side : Nat)
    (oid path : Option String) (hashArg : Option Bytes) (ex : Option ExVal)
    (st' : SyncState) (h : update_entry st entId side oid path hashArg ex = .ok st')
    (hg : GoodState st) : GoodState st' := by
  unfold update_entry at h
  cases oid with
  | none =>
    cases path with
    | none =>
      refine bind_post_aux GoodState (pure st) _ st' ?_ h
      intro stB stC hb hc
      have hb2 : st = stB := by simpa using hb
      rw [← hb2] at hc
      exact update_entry_cont_good st entId side hashArg ex stC hc hg
    | some p =>
      refine bind_post_aux GoodState (change_path st side entId p) _ st' ?_ h
      intro stB stC hb hc
      exact update_entry_cont_good stB entId side hashArg ex stC hc
        (change_path_good st side entId p stB hb hg)
  | some o =>
    have hg1 : GoodState (change_oid st side entId o) := change_oid_good st side entId o hg
    cases path with
    | none =>
      refine bind_post_aux GoodState (pure (change_oid st side entId o)) _ st' ?_ h
      intro stB stC hb hc
      have hb2 : change_oid st side entId o = stB := by simpa using hb
      rw [← hb2] at hc
      exact update_entry_cont_good _ entId side hashArg ex stC hc hg1
    | some p =>
      refine bind_post_aux GoodState (change_path (change_oid st side entId o) side entId p)
        _ st' ?_ h
      intro stB stC hb hc
      exact update_entry_cont_good stB entId side hashArg ex stC hc
        (change_path_good (change_oid st side entId o) side entId p stB hb hg1)

theorem set_side_discarded (e : SyncEntry) (i : Nat) (s : SideState) :
    (e.set i s).discarded = e.discarded := by
  unfold SyncEntry.set
  by_cases h : i = 0 <;> simp [h]

theorem entHasChanged_clear (e : SyncEntry) (side : Nat)
    (h : entHasChanged (e.set side { e.get side with changed := none }) = true) :
    entHasChanged e = true := by
  unfold entHasChanged at h ⊢
  unfold SyncEntry.set SyncEntry.get at h
  by_cases hs : side = 0
  · simp [hs, truthyT] at h
    rw [Bool.or_eq_true]
    exact Or.inl h
  · simp [hs, truthyT] at h
    rw [Bool.or_eq_true]
    exact Or.inr h

theorem entHasChanged_stamp (e : SyncEntry) (side : Nat) (now : Rat) (hnow : ¬ now = 0) :
    entHasChanged (e.set side { e.get side with changed := some now }) = true := by
  unfold entHasChanged SyncEntry.set SyncEntry.get
  by_cases hs : side = 0 <;> simp [hs, truthyT, hnow]

theorem storage_update_stable (st : SyncState) (entId : EntId) (st' : SyncState)
    (h : storage_update st entId = .ok st') :
    (∀ q, st'.oids q = st.oids q) ∧ st'.nextEid = st.nextEid := by
  unfold storage_update at h
  cases hst : st.storage with
  | none =>
    simp only [hst] at h
    cases h
    exact ⟨fun q => rfl, rfl⟩
  | some store =>
    simp only [hst] at h
    cases hent : st.getEnt entId with
    | none =>
      simp only [hent] at h
      cases h
      exact ⟨fun q => rfl, rfl⟩
    | some e =>
      simp only [hent] at h
      cases hsid : e.storage_id with
      | some sid =>
        simp only [hsid] at h
        cases hdisc : e.discarded with
        | true =>
          simp [hdisc] at h
          rw [← h]
          refine ⟨fun q => ?_, rfl⟩
          simp only [setEnt_oids]
          unfold SyncState.oids
          split <;> rfl
        | false =>
          cases hser : serializeE e with
          | error err => simp [hdisc, hser] at h
          | ok D =>
            simp [hdisc, hser] at h
            rw [← h]
            refine ⟨fun q => ?_, rfl⟩
            simp only [setEnt_oids]
            unfold SyncState.oids
            split <;> rfl
      | none =>
        simp only [hsid] at h
        cases hdisc : e.discarded with
        | true => simp [hdisc] at h
        | false =>
          cases hser : serializeE e with
          | error err => simp [hdisc, hser] at h
          | ok D =>
            simp [hdisc, hser] at h
            rw [← h]
            refine ⟨fun q => ?_, rfl⟩
            simp only [setEnt_oids]
            unfold SyncState.oids
            split <;> rfl

theorem storage_update_good (st : SyncState) (entId : EntId) (st' : SyncState)
    (h : storage_update st entId = .ok st') (hg : GoodState st) : GoodState st' :=
  good_of_metaEq_stable (storage_update_metaEq st entId st' h)
    (storage_update_stable st entId st' h).1 (storage_update_stable st entId st' h).2 hg

theorem finishedOp_good (st : SyncState) (entId : EntId) (st' : SyncState)
    (h : finishedOp st entId = .ok st') (hg : GoodState st) : GoodState st' := by
  unfold finishedOp at h
  cases hent : st.getEnt entId with
  | none =>
    simp only [hent] at h
    cases h
    exact hg
  | some e =>
    simp only [hent] at h
    cases hch : entHasChanged e with
    | true =>
      simp [hch] at h
      rw [← h]
      exact hg
    | false =>
      by_cases hmem : entId ∈ st.changeset
      · simp [hch, hmem] at h
        rw [← h]
        obtain ⟨⟨h1, h2, h3⟩, hs, hf⟩ := hg
        refine ⟨⟨?_, ?_, h3.erase entId⟩, hs, hf⟩
        · intro id e2 he2 hdisc hch2
          have he2s : st.getEnt id = some e2 := he2
          have hne : id ≠ entId := by
            intro heq
            subst heq
            rw [hent] at he2s
            injection he2s with he3
            rw [he3] at hch
            rw [hch2] at hch
            simp at hch
          exact (List.mem_erase_of_ne hne).mpr (h1 id e2 he2s hdisc hch2)
        · intro id hid
          exact h2 id (List.mem_of_mem_erase hid)
      · simp [hch, hmem] at h

theorem temp_step_good (stB st' : SyncState) (entId : EntId)
    (h : (match stB.getEnt entId with
          | some e2 =>
            if truthyS e2.temp_file then pure (stB.setEnt entId { e2 with temp_file := none })
            else pure stB
          | none => pure stB) = (.ok st' : Except PyErr SyncState))
    (hg : GoodState stB) : GoodState st' := by
  cases hent : stB.getEnt entId with
  | none =>
    rw [hent] at h
    simp at h
    rw [← h]
    exact hg
  | some e2 =>
    rw [hent] at h
    by_cases ht : truthyS e2.temp_file
    · simp [ht] at h
      rw [← h]
      have hm : metaEq stB (stB.setEnt entId { e2 with temp_file := none }) :=
        metaEq_setEnt stB entId e2 _ hent rfl
      exact good_of_metaEq_stable hm (fun q => by simp) rfl hg
    · simp [ht] at h
      rw [← h]
      exact hg

theorem cleared_finish_good (st : SyncState) (entId : EntId) (side : Nat) (e : SyncEntry)
    (hent : st.getEnt entId = some e) (stB : SyncState)
    (h : finishedOp (st.setEnt entId (e.set side { e.get side with changed := none })) entId
          = .ok stB) (hg : GoodState st) : GoodState stB := by
  obtain ⟨⟨h1, h2, h3⟩, hs, hf⟩ := hg
  have hOid : OidsSound (st.setEnt entId (e.set side { e.get side with changed := none })) :=
    oidsSound_setEnt_of_some st entId e _ hent hs
  have hFr : FreshEid (st.setEnt entId (e.set side { e.get side with changed := none })) := by
    intro id hid
    have hne : id ≠ entId := by
      intro heq
      subst heq
      have hnone := hf id hid
      rw [hnone] at hent
      simp at hent
    rw [getEnt_setEnt_ne _ _ _ _ hne]
    exact hf id hid
  unfold finishedOp at h
  have hself := getEnt_setEnt_self st entId (e.set side { e.get side with changed := none })
  simp only [hself] at h
  cases hch : entHasChanged (e.set side { e.get side with changed := none }) with
  | true =>
    simp [hch] at h
    rw [← h]
    refine ⟨⟨?_, ?_, h3⟩, hOid, hFr⟩
    · intro id e2 he2 hdisc hch2
      by_cases hid : id = entId
      · subst hid
        rw [getEnt_setEnt_self] at he2
        injection he2 with he3
        refine h1 id e hent ?_ ?_
        · rw [← set_side_discarded e side { e.get side with changed := none }, he3, hdisc]
        · refine entHasChanged_clear e side ?_
          rw [he3, hch2]
      · rw [getEnt_setEnt_ne _ _ _ _ hid] at he2
        exact h1 id e2 he2 hdisc hch2
    · intro id hid
      by_cases hid2 : id = entId
      · subst hid2
        exact ⟨_, getEnt_setEnt_self _ _ _, .inl hch⟩
      · obtain ⟨e2, he2, hor⟩ := h2 id hid
        exact ⟨e2, (getEnt_setEnt_ne _ _ _ _ hid2).trans he2, hor⟩
  | false =>
    by_cases hmem : entId ∈ st.changeset
    · simp [hch, hmem] at h
      rw [← h]
      refine ⟨⟨?_, ?_, h3.erase entId⟩, hOid, hFr⟩
      · intro id e2 he2 hdisc hch2
        have he2s : (st.setEnt entId (e.set side { e.get side with changed := none })).getEnt
            id = some e2 := he2
        have hne : id ≠ entId := by
          intro heq
          subst heq
          rw [getEnt_setEnt_self] at he2s
          injection he2s with he3
          rw [he3] at hch
          rw [hch2] at hch
          simp at hch
        rw [getEnt_setEnt_ne _ _ _ _ hne] at he2s
        exact (List.mem_erase_of_ne hne).mpr (h1 id e2 he2s hdisc hch2)
      · intro id hid
        have hidm := List.mem_of_mem_erase hid
        have hne : id ≠ entId := by
          intro heq
          subst heq
          exact (List.Nodup.not_mem_erase h3) hid
        obtain ⟨e2, he2, hor⟩ := h2 id hidm
        exact ⟨e2, (getEnt_setEnt_ne _ _ _ _ hne).trans he2, hor⟩
    · simp [hch, hmem] at h

theorem manager_finished_good (st : SyncState) (side : Nat) (entId : EntId) (st' : SyncState)
    (h : manager_finished st side entId = .ok st') (hg : GoodState st) : GoodState st' := by
  unfold manager_finished at h
  cases hent : st.getEnt entId with
  | none =>
    simp only [hent] at h
    refine bind_post_aux GoodState (finishedOp st entId) _ st' ?_ h
    intro stB stC hB hC
    exact temp_step_good stB stC entId hC (finishedOp_good st entId stB hB hg)
  | some e =>
    simp only [hent] at h
    refine bind_post_aux GoodState
      (finishedOp (st.setEnt entId (e.set side { e.get side with changed := none })) entId)
      _ st' ?_ h
    intro stB stC hB hC
    exact temp_step_good stB stC entId hC (cleared_finish_good st entId side e hent stB hB hg)

theorem discardOp_good (st : SyncState) (entId : EntId) (hg : GoodState st) :
    GoodState (discardOp st entId) := by
  unfold discardOp
  cases hent : st.getEnt entId with
  | none => exact hg
  | some e =>
    obtain ⟨⟨h1, h2, h3⟩, hs, hf⟩ := hg
    refine ⟨⟨?_, ?_, h3⟩, oidsSound_setEnt_of_some st entId e _ hent hs, ?_⟩
    · intro id e2 he2 hdisc hch2
      by_cases hid : id = entId
      · subst hid
        rw [getEnt_setEnt_self] at he2
        injection he2 with he3
        rw [← he3] at hdisc
        simp at hdisc
      · rw [getEnt_setEnt_ne _ _ _ _ hid] at he2
        exact h1 id e2 he2 hdisc hch2
    · intro id hid
      by_cases hid2 : id = entId
      · subst hid2
        exact ⟨_, getEnt_setEnt_self _ _ _, .inr rfl⟩
      · obtain ⟨e2, he2, hor⟩ := h2 id hid
        exact ⟨e2, (getEnt_setEnt_ne _ _ _ _ hid2).trans he2, hor⟩
    · intro id hid
      have hne : id ≠ entId := by
        intro heq
        subst heq
        have hnone := hf id hid
        rw [hnone] at hent
        simp at hent
      rw [getEnt_setEnt_ne _ _ _ _ hne]
      exact hf id hid

theorem changeStep_good (st : SyncState) (entId : EntId) (e : SyncEntry)
    (hent : st.getEnt entId = some e) (hdisc : e.discarded = true)
    (hg : GoodState st) : GoodState (changeStep st entId) := by
  obtain ⟨⟨h1, h2, h3⟩, hs, hf⟩ := hg
  refine ⟨⟨?_, ?_, h3.erase entId⟩, hs, hf⟩
  · intro id e2 he2 hd2 hc2
    have he2s : st.getEnt id = some e2 := he2
    have hne : id ≠ entId := by
      intro heq
      subst heq
      rw [hent] at he2s
      injection he2s with he3
      rw [← he3] at hd2
      rw [hdisc] at hd2
      simp at hd2
    exact (List.mem_erase_of_ne hne).mpr (h1 id e2 he2s hd2 hc2)
  · intro id hid
    exact h2 id (List.mem_of_mem_erase hid)

theorem fresh_entry_good (st : SyncState) (ot : Option OType) (hg : GoodState st) :
    GoodState { st with entries := aset st.entries st.nextEid { otype := ot }
                        nextEid := st.nextEid + 1 } := by
  obtain ⟨⟨h1, h2, h3⟩, hs, hf⟩ := hg
  refine ⟨⟨?_, ?_, h3⟩, ?_, ?_⟩
  · intro id e2 he2 hdisc hch2
    have he2s : aget (aset st.entries st.nextEid { otype := ot }) id = some e2 := he2
    by_cases hid : id = st.nextEid
    · rw [hid, aget_aset_self] at he2s
      injection he2s with he3
      have hfresh : entHasChanged ({ otype := ot } : SyncEntry) = false := rfl
      rw [he3] at hfresh
      rw [hch2] at hfresh
      simp at hfresh
    · rw [aget_aset_ne _ _ _ _ hid] at he2s
      exact h1 id e2 he2s hdisc hch2
  · intro id hid
    obtain ⟨e2, he2, hor⟩ := h2 id hid
    have hne : id ≠ st.nextEid := by
      intro heq
      rw [heq, hf st.nextEid (le_refl _)] at he2
      simp at he2
    refine ⟨e2, ?_, hor⟩
    show aget (aset st.entries st.nextEid { otype := ot }) id = some e2
    rw [aget_aset_ne _ _ _ _ hne]
    exact he2
  · intro q k id hmem
    obtain ⟨e2, he2⟩ := hs q k id hmem
    by_cases hid : id = st.nextEid
    · refine ⟨{ otype := ot }, ?_⟩
      show aget (aset st.entries st.nextEid { otype := ot }) id = _
      rw [hid, aget_aset_self]
    · refine ⟨e2, ?_⟩
      show aget (aset st.entries st.nextEid { otype := ot }) id = some e2
      rw [aget_aset_ne _ _ _ _ hid]
      exact he2
  · intro id hid
    have hle : st.nextEid + 1 ≤ id := hid
    have hne : id ≠ st.nextEid := by omega
    show aget (aset st.entries st.nextEid { otype := ot }) id = none
    rw [aget_aset_ne _ _ _ _ hne]
    exact hf id (by omega)

theorem updateOp_cont_good (stA : SyncState) (entId : EntId) (side : Nat) (now : Rat)
    (stU st' : SyncState) (e0 : SyncEntry) (hnow : ¬ now = 0)
    (hentA : stA.getEnt entId = some e0) (hgU : GoodState stU) (hmetaU : metaEq stA stU)
    (h : storage_update
          { (match stU.getEnt entId with
             | some e => stU.setEnt entId (e.set side { e.get side with changed := some now })
             | none => stU) with
            changeset := csAdd (match stU.getEnt entId with
             | some e => stU.setEnt entId (e.set side { e.get side with changed := some now })
             | none => stU).changeset entId } entId = .ok st') : GoodState st' := by
  obtain ⟨eU, hentU, hmU⟩ := metaEq_getEnt_some hmetaU hentA
  simp only [hentU, setEnt_changeset] at h
  refine storage_update_good _ entId st' h ?_
  obtain ⟨⟨g1, g2, g3⟩, gs, gf⟩ := hgU
  refine ⟨⟨?_, ?_, csAdd_nodup entId g3⟩, ?_, ?_⟩
  · intro id e2 he2 hdisc hch2
    by_cases hid : id = entId
    · rw [hid]
      exact mem_csAdd_self stU.changeset entId
    · have he2s : stU.getEnt id = some e2 := by
        have hx : (stU.setEnt entId
            (eU.set side { eU.get side with changed := some now })).getEnt id = some e2 := he2
        rwa [getEnt_setEnt_ne _ _ _ _ hid] at hx
      exact mem_csAdd_of_mem entId (g1 id e2 he2s hdisc hch2)
  · intro id hid
    have hid2 : id ∈ csAdd stU.changeset entId := hid
    by_cases hide : id = entId
    · refine ⟨eU.set side { eU.get side with changed := some now }, ?_,
        .inl (entHasChanged_stamp eU side now hnow)⟩
      rw [hide]
      exact getEnt_setEnt_self _ _ _
    · rcases mem_csAdd_elim hid2 with hm | hm
      · obtain ⟨e2, he2, hor⟩ := g2 id hm
        exact ⟨e2, (getEnt_setEnt_ne _ _ _ _ hide).trans he2, hor⟩
      · exact absurd hm hide
  · exact oidsSound_setEnt_of_some stU entId eU _ hentU gs
  · intro id hid
    have hne : id ≠ entId := by
      intro heq
      have hnone := gf id hid
      rw [heq] at hnone
      rw [hnone] at hentU
      simp at hentU
    show (stU.setEnt entId (eU.set side { eU.get side with changed := some now })).getEnt
        id = none
    rw [getEnt_setEnt_ne _ _ _ _ hne]
    exact gf id hid

theorem updateOp_good (st : SyncState) (side : Nat) (otype : Option OType) (oid : String)
    (path : Option String) (hashArg : Option Bytes) (ex : Option ExVal) (now : Rat)
    (st' : SyncState) (hnow : 0 < now)
    (h : updateOp st side otype oid path hashArg ex now = .ok st') (hg : GoodState st) :
    GoodState st' := by
  have hnow0 : ¬ now = 0 := by
    intro h0
    rw [h0] at hnow
    exact lt_irrefl 0 hnow
  unfold updateOp at h
  cases hlk : lookup_oid st side (some oid) with
  | some i =>
    simp only [hlk] at h
    have hent0 : ∃ e0, st.getEnt i = some e0 := by
      unfold lookup_oid at hlk
      exact hg.2.1 side (some oid) i (aget_mem hlk)
    obtain ⟨e0, he0⟩ := hent0
    refine bind_post_aux GoodState (update_entry st i side (some oid) path hashArg ex) _
      st' ?_ h
    intro stU stC hU hC
    exact updateOp_cont_good st i side now stU stC e0 hnow0 he0
      (update_entry_good st i side (some oid) path hashArg ex stU hU hg)
      (update_entry_metaEq st i side (some oid) path hashArg ex stU hU) hC
  | none =>
    simp only [hlk] at h
    have hgA := fresh_entry_good st otype hg
    have heA : ({ st with entries := aset st.entries st.nextEid { otype := otype }
                          nextEid := st.nextEid + 1 } : SyncState).getEnt st.nextEid =
        some { otype := otype } := by
      show aget (aset st.entries st.nextEid { otype := otype }) st.nextEid = _
      rw [aget_aset_self]
    refine bind_post_aux GoodState
      (update_entry _ st.nextEid side (some oid) path hashArg ex) _ st' ?_ h
    intro stU stC hU hC
    exact updateOp_cont_good _ st.nextEid side now stU stC _ hnow0 heA
      (update_entry_good _ st.nextEid side (some oid) path hashArg ex stU hU hgA)
      (update_entry_metaEq _ st.nextEid side (some oid) path hashArg ex stU hU) hC

theorem dict_to_side_state_changed (side : Nat) (d : SideDict) (s : SideState)
    (h : dict_to_side_state side d = .ok s) : s.changed = d.changed := by
  unfold dict_to_side_state at h
  cases h1 : decodeHash d.hash with
  | error e =>
    rw [h1] at h
    simp at h
  | ok hh =>
    rw [h1] at h
    simp only [exbind_ok] at h
    cases h2 : decodeHash d.sync_hash with
    | error e =>
      rw [h2] at h
      simp at h
    | ok sh =>
      rw [h2] at h
      simp only [exbind_ok] at h
      cases h3 : exists_setter (exValOfStored d.exists_) with
      | error e =>
        rw [h3] at h
        simp at h
      | ok ex =>
        rw [h3] at h
        simp at h
        rw [← h]

theorem deserializeEntry_hasChanged (eid : Nat) (d : SerDict) (ent : SyncEntry)
    (h : deserializeEntry eid d = .ok ent)
    (h0 : ¬ truthyT d.side0.changed = true) (h1 : ¬ truthyT d.side1.changed = true) :
    entHasChanged ent = false := by
  simp only [Bool.not_eq_true] at h0 h1
  unfold deserializeEntry at h
  cases hs0 : dict_to_side_state 0 d.side0 with
  | error e =>
    rw [hs0] at h
    simp at h
  | ok s0 =>
    rw [hs0] at h
    simp only [exbind_ok] at h
    cases hs1 : dict_to_side_state 1 d.side1 with
    | error e =>
      rw [hs1] at h
      simp at h
    | ok s1 =>
      rw [hs1] at h
      simp at h
      rw [← h]
      show (truthyT s1.changed || truthyT s0.changed) = false
      rw [dict_to_side_state_changed 0 d.side0 s0 hs0,
          dict_to_side_state_changed 1 d.side1 s1 hs1, h0, h1]
      rfl

theorem oidsSound_index_add (X : SyncState) (side : Nat) (k0 : Option String) (entId : EntId)
    (he : ∃ e0, X.getEnt entId = some e0) (hs : OidsSound X) :
    OidsSound (X.setOidsIdx side (aset (X.oids side) k0 entId)) := by
  intro q k id hmem
  rw [oids_setOidsIdx] at hmem
  by_cases hq : (q = 0) = (side = 0)
  · rw [if_pos hq] at hmem
    rcases mem_aset_elim hmem with hold | hnew
    · obtain ⟨e2, he2⟩ := hs side k id hold
      exact ⟨e2, by simpa using he2⟩
    · obtain ⟨e0, he0⟩ := he
      have hid : id = entId := congrArg Prod.snd hnew
      refine ⟨e0, ?_⟩
      rw [hid]
      simpa using he0
  · rw [if_neg hq] at hmem
    obtain ⟨e2, he2⟩ := hs q k id hmem
    exact ⟨e2, by simpa using he2⟩

theorem rehydrateIndexSide_getEnt (X : SyncState) (entId : EntId) (ent : SyncEntry)
    (side : Nat) (id : EntId) :
    (rehydrateIndexSide X entId ent side).getEnt id = X.getEnt id := by
  unfold rehydrateIndexSide
  simp

theorem rehydrateIndexSide_changeset (X : SyncState) (entId : EntId) (ent : SyncEntry)
    (side : Nat) :
    (rehydrateIndexSide X entId ent side).changeset = X.changeset := by
  unfold rehydrateIndexSide
  simp

theorem rehydrateIndexSide_nextEid (X : SyncState) (entId : EntId) (ent : SyncEntry)
    (side : Nat) :
    (rehydrateIndexSide X entId ent side).nextEid = X.nextEid := by
  unfold rehydrateIndexSide
  simp

theorem rehydrateIndexSide_oidsSound (X : SyncState) (entId : EntId) (ent : SyncEntry)
    (side : Nat) (he : ∃ e0, X.getEnt entId = some e0) (hs : OidsSound X) :
    OidsSound (rehydrateIndexSide X entId ent side) := by
  unfold rehydrateIndexSide
  refine oidsSound_index_add _ side _ entId ?_ ?_
  · obtain ⟨e0, he0⟩ := he
    exact ⟨e0, by simpa using he0⟩
  · exact oidsSound_stable (metaEq_setPathsIdx X side _) (fun q => by simp) hs

theorem rehydrateRow_inv (st0 : SyncState) (r : Nat × SerDict) (st1 : SyncState)
    (hrow : ¬ truthyT r.2.side0.changed = true ∧ ¬ truthyT r.2.side1.changed = true)
    (h : rehydrateRow st0 r = .ok st1)
    (hinv : st0.changeset = [] ∧ (∀ id e, st0.getEnt id = some e → entHasChanged e = false) ∧
      OidsSound st0 ∧ FreshEid st0) :
    st1.changeset = [] ∧ (∀ id e, st1.getEnt id = some e → entHasChanged e = false) ∧
      OidsSound st1 ∧ FreshEid st1 := by
  obtain ⟨hcs, hch, hs, hf⟩ := hinv
  unfold rehydrateRow at h
  cases hde : deserializeEntry r.1 r.2 with
  | error e =>
    rw [hde] at h
    simp at h
  | ok ent =>
    rw [hde] at h
    simp at h
    rw [← h]
    have hentM : ({ st0 with entries := aset st0.entries st0.nextEid ent, nextEid := st0.nextEid + 1 } : SyncState).getEnt st0.nextEid =
        some ent := by
      show aget (aset st0.entries st0.nextEid ent) st0.nextEid = _
      rw [aget_aset_self]
    have hchM : ∀ id e2,
        ({ st0 with entries := aset st0.entries st0.nextEid ent, nextEid := st0.nextEid + 1 } : SyncState).getEnt id = some e2 →
          entHasChanged e2 = false := by
      intro id e2 he2
      have he2s : aget (aset st0.entries st0.nextEid ent) id = some e2 := he2
      by_cases hid : id = st0.nextEid
      · rw [hid, aget_aset_self] at he2s
        injection he2s with he3
        rw [← he3]
        exact deserializeEntry_hasChanged r.1 r.2 ent hde hrow.1 hrow.2
      · rw [aget_aset_ne _ _ _ _ hid] at he2s
        exact hch id e2 he2s
    have hsM : OidsSound { st0 with entries := aset st0.entries st0.nextEid ent, nextEid := st0.nextEid + 1 } := by
      intro q k id hmem
      obtain ⟨e2, he2⟩ := hs q k id hmem
      by_cases hid : id = st0.nextEid
      · refine ⟨ent, ?_⟩
        show aget (aset st0.entries st0.nextEid ent) id = _
        rw [hid, aget_aset_self]
      · refine ⟨e2, ?_⟩
        show aget (aset st0.entries st0.nextEid ent) id = some e2
        rw [aget_aset_ne _ _ _ _ hid]
        exact he2
    have hfM : FreshEid { st0 with entries := aset st0.entries st0.nextEid ent, nextEid := st0.nextEid + 1 } := by
      intro id hid
      have hle : st0.nextEid + 1 ≤ id := hid
      have hne : id ≠ st0.nextEid := by omega
      show aget (aset st0.entries st0.nextEid ent) id = none
      rw [aget_aset_ne _ _ _ _ hne]
      exact hf id (by omega)
    refine ⟨?_, ?_, ?_, ?_⟩
    · rw [rehydrateIndexSide_changeset, rehydrateIndexSide_changeset]
      exact hcs
    · intro id e2 he2
      rw [rehydrateIndexSide_getEnt, rehydrateIndexSide_getEnt] at he2
      exact hchM id e2 he2
    · refine rehydrateIndexSide_oidsSound _ _ _ _ ?_ ?_
      · exact ⟨ent, by rw [rehydrateIndexSide_getEnt]; exact hentM⟩
      · exact rehydrateIndexSide_oidsSound _ _ _ _ ⟨ent, hentM⟩ hsM
    · intro id hid
      rw [rehydrateIndexSide_getEnt, rehydrateIndexSide_getEnt]
      refine hfM id ?_
      rw [rehydrateIndexSide_nextEid, rehydrateIndexSide_nextEid] at hid
      exact hid

theorem rehydrate_fold_inv (rows : List (Nat × SerDict)) :
    ∀ st0 : SyncState,
      (∀ r ∈ rows, ¬ truthyT r.2.side0.changed = true ∧
        ¬ truthyT r.2.side1.changed = true) →
      (st0.changeset = [] ∧ (∀ id e, st0.getEnt id = some e → entHasChanged e = false) ∧
        OidsSound st0 ∧ FreshEid st0) →
      ∀ st : SyncState, rows.foldlM rehydrateRow st0 = .ok st →
        st.changeset = [] ∧ (∀ id e, st.getEnt id = some e → entHasChanged e = false) ∧
          OidsSound st ∧ FreshEid st := by
  induction rows with
  | nil =>
    intro st0 hrows hinv st h
    simp [List.foldlM] at h
    rw [← h]
    exact hinv
  | cons r rest ih =>
    intro st0 hrows hinv st h
    rw [List.foldlM_cons] at h
    cases hr : rehydrateRow st0 r with
    | error e =>
      rw [hr] at h
      simp at h
    | ok st1 =>
      rw [hr] at h
      simp only [exbind_ok] at h
      exact ih st1 (fun x hx => hrows x (List.mem_cons_of_mem r hx))
        (rehydrateRow_inv st0 r st1 (hrows r (List.mem_cons_self r rest)) hr hinv) st h

theorem rehydrateInit_good (rows : List (Nat × SerDict)) (st : SyncState)
    (hrows : ∀ r ∈ rows, ¬ truthyT r.2.side0.changed = true ∧
      ¬ truthyT r.2.side1.changed = true)
    (h : rehydrateInit rows = .ok st) : GoodState st := by
  unfold rehydrateInit at h
  have hinv0 : (({ storage := some rows
                   nextSid := rows.foldl (fun a r => max a (r.1 + 1)) 0 } : SyncState).changeset
        = [] ∧
      (∀ id e, ({ storage := some rows
                  nextSid := rows.foldl (fun a r => max a (r.1 + 1)) 0 } : SyncState).getEnt
          id = some e → entHasChanged e = false) ∧
      OidsSound { storage := some rows
                  nextSid := rows.foldl (fun a r => max a (r.1 + 1)) 0 } ∧
      FreshEid { storage := some rows
                 nextSid := rows.foldl (fun a r => max a (r.1 + 1)) 0 }) := by
    refine ⟨rfl, ?_, ?_, ?_⟩
    · intro id e he
      simp [SyncState.getEnt, aget] at he
    · intro q k id hmem
      unfold SyncState.oids at hmem
      split at hmem <;> simp at hmem
    · intro id hid
      rfl
  obtain ⟨hcs, hch, hs, hf⟩ := rehydrate_fold_inv rows _ hrows hinv0 st h
  refine ⟨⟨?_, ?_, ?_⟩, hs, hf⟩
  · intro id e he hdisc hch2
    rw [hch id e he] at hch2
    simp at hch2
  · intro id hid
    rw [hcs] at hid
    simp at hid
  · rw [hcs]
    exact List.nodup_nil

theorem empty_good : GoodState emptyState := by
  refine ⟨⟨?_, ?_, ?_⟩, ?_, ?_⟩
  · intro id e he hdisc hch2
    simp [emptyState, SyncState.getEnt, aget] at he
  · intro id hid
    simp [emptyState] at hid
  · exact List.nodup_nil
  · intro q k id hmem
    unfold SyncState.oids at hmem
    split at hmem <;> simp [emptyState] at hmem
  · intro id hid
    rfl

theorem reach_good (st : SyncState) (h : Reach st) : GoodState st := by
  induction h with
  | empty => exact empty_good
  | fromStorage rows s hrows hok => exact rehydrateInit_good rows s hrows hok
  | update s s' side otype oid path hashArg ex now hr hnow hok ih =>
    exact updateOp_good s side otype oid path hashArg ex now s' hnow hok ih
  | updateEntry s s' entId side oid path hashArg ex hr hok ih =>
    exact update_entry_good s entId side oid path hashArg ex s' hok ih
  | finished s s' entId hr hok ih => exact finishedOp_good s entId s' hok ih
  | managerFinished s s' side entId hr hok ih =>
    exact manager_finished_good s side entId s' hok ih
  | discard s entId hr ih => exact discardOp_good s entId ih
  | changeSample s entId e hr hmem hent hdisc ih =>
    exact changeStep_good s entId e hent hdisc ih
  | storageUpd s s' entId hr hok ih => exact storage_update_good s entId s' hok ih

/-- C3 (amended): the changeset invariant holds in every state reachable by
the modelled `SyncState` operations, with construction restricted to
persisted rows that have no truthy `changed` (the counterexample shows an
unrestricted rehydration breaks it) and `update` stamped with a nonzero
time: every non-discarded entry with a truthy `changed` on some side is in
the changeset, every changeset member has a truthy `changed` or is
discarded, and the changeset is duplicate-free. -/
theorem c3_changeset_inv_amended (st : SyncState) (h : Reach st) : ChangesetInv st :=
  (reach_good st h).1

/-- Witness for the amended C3: the freshly constructed state is reachable
and satisfies the invariant. -/
theorem c3_changeset_inv_amended_witness : ChangesetInv emptyState :=
  c3_changeset_inv_amended emptyState Reach.empty

end CloudSync
